import Mathlib

/-!
Verification of the mirroring engine of `src/index.js` (a static mirror of
authenticated AWStats report pages).

The JavaScript code is shallowly embedded: the external collaborators
(cheerio's HTML parser, the WHATWG `URL` constructor, `fetch`, and the file
system) are modelled as explicit oracles and state, while every function of
the engine itself (`extractResources`, `urlToFilename`, `rewriteHtmlUrls`,
`extractSubpageLinks`, `downloadResourcesAndSave`, `fetchPage`,
`fetchSubpages`) is translated faithfully from the source.

Modelling conventions:
* The file system is an association list from path to file content;
  `fs.pathExists` is key membership, `fs.writeFile` is `objSet` (insert or
  overwrite in place).  `fs.ensureDir` has no observable effect in this model.
* A JavaScript plain object used as a dictionary (`resourceMap`) is an
  insertion-ordered association list; assignment updates the value in place
  if the key exists and appends otherwise (`objSet`), exactly like JS string
  keys.
* `fetch`/`fetchWithAuth` is an oracle `String → Option String`: `some body`
  for a 2xx response, `none` when `fetchWithAuth` throws.  Every call to
  `fetchWithAuth` is recorded in a `log` so that "performs zero fetch calls"
  is a statement about the model.  Cookies only affect request headers, never
  control flow, so they are folded into the oracle.
* `new URL(u)` component access is an oracle `parse : String → UrlParts`
  giving `pathname` and `search` (the concrete instances used in witnesses
  agree with the WHATWG parser on the strings involved).
  `new URL(ref, base)` resolution is an oracle
  `resolve : String → String → Option String` (`none` when the constructor
  throws on a malformed reference).
* `cheerio.load` is an oracle `load : String → List Elem` giving the
  document's elements in traversal order; the CSS selectors of the source
  (`link[rel="stylesheet"]`, `script[src]`, `img[src]`, `[style*="url("]`,
  `a[href]`) are predicates on those elements.  Attribute-value matching for
  `rel` is ASCII case-insensitive (as in css-select for HTML documents);
  the substring test of `[style*="url("]` is case-sensitive.
* Strings are Lean `String`s; the character-level algorithms (literal global
  replacement as performed by the escaped regular expression of
  `rewriteHtmlUrls`, the `url(...)` scanner of the inline-style pass, base64)
  are implemented structurally on `List Char` so that everything evaluates
  inside the kernel.
-/

/-! # Definitions -/

/-! ## Generic helpers: character-list matching -/

/-- `isPre k s` is true iff the character list `k` is a prefix of `s`
(the matching performed by JavaScript's `String.startsWith` and, after
regex-escaping, by a literal regular expression anchored at a position). -/
def isPre : List Char → List Char → Bool
  | [], _ => true
  | _ :: _, [] => false
  | a :: as, b :: bs => if a = b then isPre as bs else false

/-- `occursIn k s` is true iff `k` occurs as a contiguous substring of `s`. -/
def occursIn (k : List Char) : List Char → Bool
  | [] => k.isEmpty
  | c :: cs => isPre k (c :: cs) || occursIn k cs

/-- String-level `startsWith`, exactly JavaScript's `String.startsWith`. -/
def strStartsWith (s p : String) : Bool := isPre p.data s.data

/-- String-level `endsWith`, exactly JavaScript's `String.endsWith`. -/
def strEndsWith (s p : String) : Bool := isPre p.data.reverse s.data.reverse

/-! ## File system and JavaScript-object model -/

/-- Association-list lookup (first occurrence wins; `objSet` keeps keys
unique, so this is exact for both the file system and `resourceMap`). -/
def lookupA : List (String × String) → String → Option String
  | [], _ => none
  | (k, v) :: rest, key => if k = key then some v else lookupA rest key

/-- JavaScript-object assignment `m[k] = v` / `fs.writeFile k v`: update the
value in place when the key exists, append otherwise. -/
def objSet : List (String × String) → String → String → List (String × String)
  | [], k, v => [(k, v)]
  | (k', v') :: rest, k, v =>
    if k' = k then (k', v) :: rest else (k', v') :: objSet rest k v

/-- `fs.pathExists`. -/
def pathExists (fs : List (String × String)) (p : String) : Bool :=
  (lookupA fs p).isSome

/-- `path.join` for the well-formed relative segments the engine produces. -/
def pathJoin (a b : String) : String := a ++ "/" ++ b

/-! ## URL model -/

/-- The components of an already-parsed absolute URL that the engine reads
(`new URL(u).pathname` and `new URL(u).search`; `search` is either empty or
starts with `?`, as in the WHATWG URL API). -/
structure UrlParts where
  pathname : String
  search : String
  deriving DecidableEq, Repr

/-- A parsed HTML element: tag name plus attributes (cheerio's view). -/
structure Elem where
  tag : String
  attrs : List (String × String)
  deriving DecidableEq, Repr

/-- `$(el).attr(name)`. -/
def attrOf (e : Elem) (n : String) : Option String := lookupA e.attrs n

/-- The external collaborators: cheerio's parser, WHATWG URL resolution and
URL component access. -/
structure Env where
  load : String → List Elem
  resolve : String → String → Option String
  parse : String → UrlParts

/-! ## `urlToFilename` (the Path Mapper) -/

/-- The base64 alphabet used by `Buffer.toString('base64')`. -/
def b64Alphabet : List Char :=
  "ABCDEFGHIJKLMNOPQRSTUVWXYZabcdefghijklmnopqrstuvwxyz0123456789+/".data

def b64digit (n : Nat) : Char := b64Alphabet.getD n 'A'

/-- Standard base64 encoding (with `=` padding) of a byte list, as produced
by `Buffer.from(s).toString('base64')`. -/
def b64encode : List Nat → List Char
  | [] => []
  | [a] => [b64digit (a / 4), b64digit (a % 4 * 16), '=', '=']
  | [a, b] => [b64digit (a / 4), b64digit (a % 4 * 16 + b / 16), b64digit (b % 16 * 4), '=']
  | a :: b :: c :: rest =>
    b64digit (a / 4) :: b64digit (a % 4 * 16 + b / 16) ::
      b64digit (b % 16 * 4 + c / 64) :: b64digit (c % 64) :: b64encode rest

/-- UTF-8 encoding of one character (what `Buffer.from(string)` uses). -/
def charUtf8 (c : Char) : List Nat :=
  let n := c.toNat
  if n < 128 then [n]
  else if n < 2048 then [192 + n / 64, 128 + n % 64]
  else if n < 65536 then [224 + n / 4096, 128 + n / 64 % 64, 128 + n % 64]
  else [240 + n / 262144, 128 + n / 4096 % 64, 128 + n / 64 % 64, 128 + n % 64]

def utf8Bytes (s : String) : List Nat := (s.data.map charUtf8).flatten

/-- Node's `path.extname`/`path.basename(p, ext)` pair for a path without
separators (after the engine has replaced every `/` with `_`): the extension
starts at the last dot, unless that dot is the first character. -/
def splitExt (s : String) : String × String :=
  match s.data.reverse.findIdx? (fun c => c = '.') with
  | none => (s, "")
  | some j =>
    let i := s.data.length - 1 - j
    if i = 0 then (s, "") else (⟨s.data.take i⟩, ⟨s.data.drop i⟩)

/-- `if (pathname.startsWith('/')) pathname = pathname.substring(1);` -/
def stripLeadingSlash (p : String) : String :=
  if strStartsWith p "/" then ⟨p.data.drop 1⟩ else p

/-- `pathname = pathname.replace(/\//g, '_');` -/
def slashesToUnderscores (p : String) : String :=
  ⟨p.data.map (fun c => if c = '/' then '_' else c)⟩

/-- `Buffer.from(parsed.search).toString('base64').substring(0, 8)` -/
def queryHash (search : String) : String :=
  ⟨(b64encode (utf8Bytes search)).take 8⟩

/-- `urlToFilename(url)` of the source, acting on the parsed URL: flatten the
pathname into a single filename and, when a query string is present, splice
the truncated base64 of the query between the filename stem and extension. -/
def urlToFilenameParts (parsed : UrlParts) : String :=
  let p1 := stripLeadingSlash parsed.pathname
  let p2 := slashesToUnderscores p1
  let p3 :=
    if parsed.search ≠ "" then
      let se := splitExt p2
      se.1 ++ "_" ++ queryHash parsed.search ++ se.2
    else p2
  if p3 = "" then "index.html" else p3

/-- `urlToFilename(url)`: `new URL(url)` is the `parse` oracle. -/
def urlToFilename (parse : String → UrlParts) (url : String) : String :=
  urlToFilenameParts (parse url)

/-- Concrete `new URL` component table for the two URLs of the C5
counterexample (these are exactly the `pathname`/`search` values the WHATWG
parser produces for them). -/
def c5Parse : String → UrlParts := fun u =>
  if u = "https://stat.example.com/style.css?aaaaaab" then ⟨"/style.css", "?aaaaaab"⟩
  else if u = "https://stat.example.com/style.css?aaaaaac" then ⟨"/style.css", "?aaaaaac"⟩
  else ⟨"/", ""⟩

/-- Concrete `new URL` component table for the C5 witness. -/
def c5ParseW : String → UrlParts := fun u =>
  if u = "https://stat.example.com/a.css?x=1" then ⟨"/a.css", "?x=1"⟩
  else if u = "https://stat.example.com/a.css?y=22" then ⟨"/a.css", "?y=22"⟩
  else ⟨"/", ""⟩

/-! ## `rewriteHtmlUrls` (the Reference Rewriter) -/

/--
One step of `rewritten.replace(new RegExp(escaped, 'g'), localPath)`:
global, left-to-right, non-overlapping replacement of the literal `k` by `v`
(the source escapes every regex metacharacter of the original reference, so
the regular expression matches exactly the literal text).  The `fuel`
argument only drives structural recursion; one character of input is
consumed per step, so `fuel = s.length` always suffices and the `0, s`
branch is unreachable from `replaceAllL`.
-/
def replaceAllAux (k v : List Char) : Nat → List Char → List Char
  | _, [] => if k = [] then v else []
  | 0, s => s
  | f + 1, c :: cs =>
    if k ≠ [] ∧ isPre k (c :: cs) = true then
      v ++ replaceAllAux k v f ((c :: cs).drop k.length)
    else if k = [] then v ++ c :: replaceAllAux k v f cs
    else c :: replaceAllAux k v f cs

def replaceAllL (k v s : List Char) : List Char := replaceAllAux k v s.length s

/-- `s.replace(new RegExp(escape(k), 'g'), v)` on strings. -/
def replaceAll (s k v : String) : String := ⟨replaceAllL k.data v.data s.data⟩

/-- `rewriteHtmlUrls(html, resourceMap, baseUrl)` of the source: for each
entry of the table in insertion order, globally replace the literal key by
its local path.  (`baseUrl` is an unused parameter in the source as well.) -/
def rewriteHtmlUrls (html : String) (resourceMap : List (String × String))
    (_baseUrl : String) : String :=
  resourceMap.foldl (fun acc p => replaceAll acc p.1 p.2) html

/-- The double-quote character (written via its code so that character
literals stay unambiguous). -/
def quoteD : Char := Char.ofNat 34

/-- The single-quote character. -/
def quoteS : Char := Char.ofNat 39

/-- `quoteFree s` holds when `s` contains no double quote (true of every URL
reference and of every local path the engine builds). -/
def quoteFree (s : String) : Bool := decide (quoteD ∉ s.data)

/-! ## `extractResources` (the Reference Extractor) -/

/-- A `Resource` exactly as built by the source:
`{ type, url: absoluteUrl, original: literal reference text }`. -/
structure Resource where
  type : String
  url : String
  original : String
  deriving DecidableEq, Repr

def lowerChar (c : Char) : Char :=
  if 'A' ≤ c ∧ c ≤ 'Z' then Char.ofNat (c.toNat + 32) else c

def lowerStr (s : String) : String := ⟨s.data.map lowerChar⟩

/-- The characters matched by the regex class `\s` (ASCII white space plus
no-break space; the engine only ever meets ASCII style attributes). -/
def isWsChar (c : Char) : Bool :=
  c.toNat = 32 || (9 ≤ c.toNat && c.toNat ≤ 13) || c.toNat = 160

def isQuoteChar (c : Char) : Bool := c = quoteS ∨ c = quoteD

/-- A character allowed inside the captured group `[^'")\s]+`. -/
def styleBodyChar (c : Char) : Bool := !(isQuoteChar c || c = ')' || isWsChar c)

/-- One attempted match of `/url\(['"]?([^'")\s]+)['"]?\)/i` anchored at the
head of the list: returns the captured group and the total matched length.
The regex is deterministic here: the leading quote, if present, must be
consumed (the group cannot start with a quote), the group is the maximal run
of allowed characters, and only the optional trailing quote offers a
backtracking choice, decided by the next one or two characters. -/
def tryStyleUrl : List Char → Option (List Char × Nat)
  | u :: r :: l :: p :: rest =>
    if lowerChar u = 'u' ∧ lowerChar r = 'r' ∧ lowerChar l = 'l' ∧ p = '(' then
      let qrest :=
        match rest with
        | q :: t => if isQuoteChar q then (1, t) else (0, rest)
        | [] => (0, ([] : List Char))
      let body := qrest.2.takeWhile styleBodyChar
      let rest2 := qrest.2.drop body.length
      if body = [] then none
      else
        match rest2 with
        | c2 :: rest3 =>
          if c2 = ')' then some (body, 4 + qrest.1 + body.length + 1)
          else if isQuoteChar c2 then
            match rest3 with
            | c3 :: _ =>
              if c3 = ')' then some (body, 4 + qrest.1 + body.length + 2)
              else none
            | [] => none
          else none
        | [] => none
    else none
  | _ => none

/-- `style.match(/url\(['"]?([^'")\s]+)['"]?\)/gi)` with the capture of each
match extracted (the source re-matches each matched substring to read group
1, which yields exactly the captured run): scan left to right, on a match
continue after it, otherwise advance one character.  The fuel equals the
input length; at least one character is consumed per step, so the `0` branch
is unreachable. -/
def scanStyleUrlsAux : Nat → List Char → List String
  | 0, _ => []
  | _ + 1, [] => []
  | fuel + 1, c :: rest =>
    match tryStyleUrl (c :: rest) with
    | some (body, n) =>
      (⟨body⟩ : String) :: scanStyleUrlsAux fuel ((c :: rest).drop (max n 1))
    | none => scanStyleUrlsAux fuel rest

def scanStyleUrls (s : String) : List String := scanStyleUrlsAux s.data.length s.data

/-- Selector `link[rel="stylesheet"]` (attribute value matched ASCII
case-insensitively, as css-select does for `rel` in HTML documents). -/
def isStylesheetLink (e : Elem) : Bool :=
  e.tag == "link" && (match attrOf e "rel" with
    | some r => lowerStr r == "stylesheet"
    | none => false)

/-- Selector `[style*="url("]` (case-sensitive substring test). -/
def hasStyleUrl (e : Elem) : Bool :=
  match attrOf e "style" with
  | some style => occursIn "url(".data style.data
  | none => false

/--
`extractResources(html, baseUrl)` of the source.  Each of the four passes
iterates the document's elements in order and `add`s a freshly allocated
object `{type, url, original}` to a JS `Set`.  A JS `Set` compares objects
by reference, and each object literal is a new reference, so the `Set` never
de-duplicates: it is an insertion-ordered list, modelled by list append.
References that are missing, empty (falsy) or fail to resolve are skipped.
-/
def extractResources (env : Env) (html : String) (baseUrl : String) :
    List Resource :=
  let doc := env.load html
  let cssRes := doc.foldl (fun acc e =>
    if isStylesheetLink e then
      match attrOf e "href" with
      | some href =>
        if href ≠ "" then
          match env.resolve href baseUrl with
          | some abs => acc ++ [⟨"css", abs, href⟩]
          | none => acc
        else acc
      | none => acc
    else acc) []
  let jsRes := doc.foldl (fun acc e =>
    if e.tag == "script" && (attrOf e "src").isSome then
      match attrOf e "src" with
      | some src =>
        if src ≠ "" then
          match env.resolve src baseUrl with
          | some abs => acc ++ [⟨"js", abs, src⟩]
          | none => acc
        else acc
      | none => acc
    else acc) []
  let imgRes := doc.foldl (fun acc e =>
    if e.tag == "img" && (attrOf e "src").isSome then
      match attrOf e "src" with
      | some src =>
        if src ≠ "" then
          match env.resolve src baseUrl with
          | some abs => acc ++ [⟨"image", abs, src⟩]
          | none => acc
        else acc
      | none => acc
    else acc) []
  let styleRes := doc.foldl (fun acc e =>
    if hasStyleUrl e then
      match attrOf e "style" with
      | some style =>
        acc ++ (scanStyleUrls style).foldl (fun a uref =>
          match env.resolve uref baseUrl with
          | some abs => a ++ [⟨"image", abs, uref⟩]
          | none => a) []
      | none => acc
    else acc) []
  cssRes ++ jsRes ++ imgRes ++ styleRes

/-! ## `extractSubpageLinks` (the Link Extractor) -/

/-- `Set.add` on a JS `Set` of *strings*: strings compare by value, so this
really does de-duplicate, keeping insertion order. -/
def addUnique (acc : List String) (x : String) : List String :=
  if x ∈ acc then acc else acc ++ [x]

/-- The body of the `$('a[href]').each(...)` loop of `extractSubpageLinks`:
skip missing/empty targets, pure `#` fragments and absolute `http(s)` URLs
(which is how the external awstats.org documentation links are excluded),
and keep `awstats.*.html` names. -/
def subpageLinkStep (acc : List String) (e : Elem) : List String :=
  if e.tag == "a" && (attrOf e "href").isSome then
    match attrOf e "href" with
    | some href =>
      if href == "" then acc
      else if strStartsWith href "#" then acc
      else if strStartsWith href "http://" || strStartsWith href "https://" then acc
      else if strStartsWith href "awstats." && strEndsWith href ".html" then
        addUnique acc href
      else acc
    | none => acc
  else acc

/-- `extractSubpageLinks(html)` of the source. -/
def extractSubpageLinks (env : Env) (html : String) : List String :=
  (env.load html).foldl subpageLinkStep []

/-! ## `downloadResourcesAndSave` (the Resource Materializer) -/

/-- State threaded through the engine: the file system, the `resourceMap`
object, and the ordered list of URLs passed to `fetchWithAuth` (every call
is recorded, successful or thrown). -/
structure MatState where
  fs : List (String × String)
  map : List (String × String)
  log : List String
  deriving Repr

/--
The `for (const resource of resources)` loop of `downloadResourcesAndSave`:
compute the local path via the Path Mapper; if the file exists, record the
two mappings and skip the network call; otherwise call `fetchWithAuth` and
either write the body and record the mappings, or (on a thrown failure) log
and continue with the next resource.
-/
def materializeLoop (parse : String → UrlParts) (fetch : String → Option String)
    (pageDir : String) : List Resource → MatState → MatState
  | [], st => st
  | r :: rest, st =>
    let filename := urlToFilename parse r.url
    let localPath := "resources/" ++ filename
    let fullPath := pathJoin pageDir localPath
    if pathExists st.fs fullPath then
      materializeLoop parse fetch pageDir rest
        { st with map := objSet (objSet st.map r.original localPath) r.url localPath }
    else
      match fetch r.url with
      | some body =>
        materializeLoop parse fetch pageDir rest
          { fs := objSet st.fs fullPath body,
            map := objSet (objSet st.map r.original localPath) r.url localPath,
            log := st.log ++ [r.url] }
      | none =>
        materializeLoop parse fetch pageDir rest { st with log := st.log ++ [r.url] }

/-- `downloadResourcesAndSave(html, pageUrl, pageDir, htmlFilename, cookies)`:
extract the resources, materialize each of them, rewrite the html with the
accumulated table and write it; returns the final state and
`resources.length`.  (`fs.ensureDir` has no effect in the model.) -/
def downloadResourcesAndSave (env : Env) (fetch : String → Option String)
    (fs₀ : List (String × String)) (html pageUrl pageDir htmlFilename : String) :
    MatState × Nat :=
  let resources := extractResources env html pageUrl
  let st := materializeLoop env.parse fetch pageDir resources ⟨fs₀, [], []⟩
  let newHtml := rewriteHtmlUrls html st.map pageUrl
  ({ st with fs := objSet st.fs (pathJoin pageDir htmlFilename) newHtml },
    resources.length)

/-- The full on-disk path the materializer uses for a resource. -/
def resPath (parse : String → UrlParts) (pageDir : String) (r : Resource) : String :=
  pathJoin pageDir ("resources/" ++ urlToFilename parse r.url)

/-- The reference table produced by a run in which every resource is either
already on disk or fetched successfully: both the original reference and the
absolute URL of each resource map to its local path, in iteration order
(written accumulator-style to mirror the loop). -/
def canonicalTable (parse : String → UrlParts) :
    List Resource → List (String × String) → List (String × String)
  | [], m => m
  | r :: rest, m =>
    let localPath := "resources/" ++ urlToFilename parse r.url
    canonicalTable parse rest (objSet (objSet m r.original localPath) r.url localPath)

/-! ## `fetchPage` (the Page Materializer) -/

/-- Node `path.basename(p)` (no suffix argument): ignore trailing
separators, then take the segment after the last separator. -/
def basenameStr (s : String) : String :=
  ⟨((s.data.reverse.dropWhile (fun c => c = '/')).takeWhile (fun c => c ≠ '/')).reverse⟩

/-- `path.basename(new URL(url).pathname) || 'index.html'` (shared by
`fetchPage` and `fetchSubpages`). -/
def htmlFilenameOf (parse : String → UrlParts) (url : String) : String :=
  let b := basenameStr (parse url).pathname
  if b = "" then "index.html" else b

/-- The output root (`<projectRoot>/output`; the absolute prefix does not
matter to any claim). -/
def OUTPUT_DIR : String := "output"

/-- `fetchPage(url, domain, dateCode, cookies)`: the page body is *always*
fetched afresh — there is no existence check for the page's own HTML file —
then resources are materialized and the rewritten document written.  `none`
models the `fetchWithAuth` throw propagating to the caller. -/
def fetchPage (env : Env) (fetch : String → Option String)
    (fs₀ : List (String × String)) (url domain dateCode : String) :
    Option (MatState × Nat) :=
  let pageDir := pathJoin (pathJoin OUTPUT_DIR domain) dateCode
  match fetch url with
  | none => none
  | some html =>
    let htmlFilename := htmlFilenameOf env.parse url
    let res := downloadResourcesAndSave env fetch fs₀ html url pageDir htmlFilename
    some ({ res.1 with log := url :: res.1.log }, res.2)

/-! ## `fetchSubpages` (the Recursive Crawler) -/

/-- `url.substring(0, url.lastIndexOf('/') + 1)`. -/
def baseUrlOf (url : String) : String :=
  match url.data.reverse.findIdx? (fun c => c = '/') with
  | none => ""
  | some j => ⟨url.data.take (url.data.length - j)⟩

/-- State threaded through the sub-page loop.  `subAttempts` records, in
order, the sub-page filenames for which the fetch branch executed (exactly
one page-level `fetchWithAuth` call each); `log` records every
`fetchWithAuth` call (sub-pages and their resources). -/
structure SubState where
  fs : List (String × String)
  log : List String
  subAttempts : List String
  subpagesFetched : Nat
  subpagesFailed : Nat
  deriving Repr

/-- The `for (const subpageFile of filteredLinks)` loop of `fetchSubpages`:
skip (but count as fetched) sub-pages already on disk; otherwise fetch and
materialize the sub-page, counting failures without aborting siblings. -/
def subpagesLoop (env : Env) (fetch : String → Option String)
    (pageDir baseUrl : String) : List String → SubState → SubState
  | [], st => st
  | f :: rest, st =>
    let subpageUrl := baseUrl ++ f
    let subpagePath := pathJoin pageDir f
    if pathExists st.fs subpagePath then
      subpagesLoop env fetch pageDir baseUrl rest
        { st with subpagesFetched := st.subpagesFetched + 1 }
    else
      match fetch subpageUrl with
      | some html =>
        let res := downloadResourcesAndSave env fetch st.fs html subpageUrl pageDir f
        subpagesLoop env fetch pageDir baseUrl rest
          { fs := res.1.fs,
            log := st.log ++ subpageUrl :: res.1.log,
            subAttempts := st.subAttempts ++ [f],
            subpagesFetched := st.subpagesFetched + 1,
            subpagesFailed := st.subpagesFailed }
      | none =>
        subpagesLoop env fetch pageDir baseUrl rest
          { st with
            log := st.log ++ [subpageUrl],
            subAttempts := st.subAttempts ++ [f],
            subpagesFailed := st.subpagesFailed + 1 }

/-- `fetchSubpages(url, domain, dateCode, cookies)`: read the saved main
page, extract the (de-duplicated) sub-page links, filter out the main page's
own filename, and run the loop.  The early return for an empty link list is
the loop on `[]`. -/
def fetchSubpages (env : Env) (fetch : String → Option String)
    (fs₀ : List (String × String)) (url domain dateCode : String) : SubState :=
  let pageDir := pathJoin (pathJoin OUTPUT_DIR domain) dateCode
  let mainHtmlFilename := htmlFilenameOf env.parse url
  let mainHtmlPath := pathJoin pageDir mainHtmlFilename
  match lookupA fs₀ mainHtmlPath with
  | none => ⟨fs₀, [], [], 0, 0⟩
  | some mainHtml =>
    let subpageLinks := extractSubpageLinks env mainHtml
    let filteredLinks := subpageLinks.filter (fun l => l != mainHtmlFilename)
    subpagesLoop env fetch pageDir (baseUrlOf url) filteredLinks ⟨fs₀, [], [], 0, 0⟩

/-! ## Concrete scenario environments -/

def c2Html : String := "<img src=\"logo.png\"><img src=\"logo.png\">"

/-- Concrete cheerio/URL oracle for the C2 failing input: a document whose
two `img` elements carry the same source reference. -/
def c2Env : Env :=
  { load := fun h =>
      if h == c2Html then
        [⟨"img", [("src", "logo.png")]⟩, ⟨"img", [("src", "logo.png")]⟩]
      else [],
    resolve := fun ref base =>
      if base == "https://stat.example.com/page.html" && ref == "logo.png" then
        some "https://stat.example.com/logo.png"
      else none,
    parse := fun _ => ⟨"/", ""⟩ }

def c8Html : String :=
  "<a href=\"http://www.excluded-docs.example/\">ref</a><a href=\"awstats.x.errors404.html\">e</a>"

/-- Concrete cheerio oracle for the C8 scenario, the two anchors of the
spec's Link Extractor scenario. -/
def c8Env : Env :=
  { load := fun h =>
      if h == c8Html then
        [⟨"a", [("href", "http://www.excluded-docs.example/")]⟩,
         ⟨"a", [("href", "awstats.x.errors404.html")]⟩]
      else [],
    resolve := fun _ _ => none,
    parse := fun _ => ⟨"/", ""⟩ }

def c9Html : String :=
  "<a href=\"https://stat.example.com/cgi-bin/awstats.x.urldetail.html\">e</a>"

/-- Concrete cheerio oracle for C9: a single anchor whose target is an
*absolute* URL to a same-family sibling report page. -/
def c9Env : Env :=
  { load := fun h =>
      if h == c9Html then
        [⟨"a", [("href", "https://stat.example.com/cgi-bin/awstats.x.urldetail.html")]⟩]
      else [],
    resolve := fun _ _ => none,
    parse := fun _ => ⟨"/", ""⟩ }

def c1Parse : String → UrlParts := fun u =>
  if u == "https://stat.example.com/style.css" then ⟨"/style.css", ""⟩
  else ⟨"/", ""⟩

def c1Res : Resource := ⟨"css", "https://stat.example.com/style.css", "style.css"⟩

/-- Concrete oracles for the C4 witness: a page whose HTML file and whose
single stylesheet resource are both already on disk. -/
def c4Env : Env :=
  { load := fun h =>
      if h == "<link rel=\"stylesheet\" href=\"style.css\">" then
        [⟨"link", [("rel", "stylesheet"), ("href", "style.css")]⟩]
      else [],
    resolve := fun ref base =>
      if base == "https://stat.example.com/cgi-bin/awstats.x.html" && ref == "style.css" then
        some "https://stat.example.com/cgi-bin/style.css"
      else none,
    parse := fun u =>
      if u == "https://stat.example.com/cgi-bin/awstats.x.html" then
        ⟨"/cgi-bin/awstats.x.html", ""⟩
      else if u == "https://stat.example.com/cgi-bin/style.css" then
        ⟨"/cgi-bin/style.css", ""⟩
      else ⟨"/", ""⟩ }

def c4Fetch : String → Option String := fun u =>
  if u == "https://stat.example.com/cgi-bin/awstats.x.html" then
    some "<link rel=\"stylesheet\" href=\"style.css\">"
  else none

def c4Fs : List (String × String) :=
  [("output/example.com/202601/awstats.x.html", "old content"),
   ("output/example.com/202601/resources/cgi-bin_style.css", "cssbytes")]

/-- Concrete oracles for the C10 witness: the main page and its one linked
sub-page are both already on disk. -/
def c10Env : Env :=
  { load := fun h =>
      if h == "mainhtml" then [⟨"a", [("href", "awstats.x.urldetail.html")]⟩]
      else [],
    resolve := fun _ _ => none,
    parse := fun u =>
      if u == "https://stat.example.com/cgi-bin/awstats.x.html" then
        ⟨"/cgi-bin/awstats.x.html", ""⟩
      else ⟨"/", ""⟩ }

def c10Fs : List (String × String) :=
  [("output/example.com/202601/awstats.x.html", "mainhtml"),
   ("output/example.com/202601/awstats.x.urldetail.html", "sub")]

/-- Concrete oracles for the C7 witness: a materialized main page linking
one not-yet-fetched sub-page (whose fetch then fails). -/
def c7Env : Env :=
  { load := fun h =>
      if h == "mainhtml" then
        [⟨"a", [("href", "awstats.x.urldetail.html")]⟩,
         ⟨"a", [("href", "awstats.x.html")]⟩]
      else [],
    resolve := fun _ _ => none,
    parse := fun u =>
      if u == "https://stat.example.com/cgi-bin/awstats.x.html" then
        ⟨"/cgi-bin/awstats.x.html", ""⟩
      else ⟨"/", ""⟩ }

def c7Fs : List (String × String) :=
  [("output/example.com/202601/awstats.x.html", "mainhtml")]

def c6Html : String := "<link rel=\"stylesheet\" href=\"ok.css\"><img src=\"bad.png\">"

def c6U : String := "<link rel=\"stylesheet\" href=\"ok.css\"><img src="

/-- Concrete oracles for the C6 witness: one stylesheet that fetches
successfully and one image whose fetch fails. -/
def c6Env : Env :=
  { load := fun h =>
      if h == c6Html then
        [⟨"link", [("rel", "stylesheet"), ("href", "ok.css")]⟩,
         ⟨"img", [("src", "bad.png")]⟩]
      else [],
    resolve := fun ref base =>
      if base == "https://stat.example.com/page.html" then
        if ref == "ok.css" then some "https://stat.example.com/ok.css"
        else if ref == "bad.png" then some "https://stat.example.com/bad.png"
        else none
      else none,
    parse := fun u =>
      if u == "https://stat.example.com/ok.css" then ⟨"/ok.css", ""⟩
      else if u == "https://stat.example.com/bad.png" then ⟨"/bad.png", ""⟩
      else ⟨"/", ""⟩ }

def c6Fetch : String → Option String := fun u =>
  if u == "https://stat.example.com/ok.css" then some "cssbody" else none

def c6Rf : Resource := ⟨"image", "https://stat.example.com/bad.png", "bad.png"⟩

/-! # Theorems -/

/-! ## Helper lemmas -/

theorem isPre_iff (k : List Char) : ∀ s, isPre k s = true ↔ ∃ t, k ++ t = s := by
  induction k with
  | nil => intro s; simp [isPre]
  | cons a as ih =>
    intro s
    cases s with
    | nil =>
      simp [isPre]
    | cons b bs =>
      by_cases hab : a = b
      · subst hab
        have hred : isPre (a :: as) (a :: bs) = isPre as bs := by simp [isPre]
        rw [hred, ih bs]
        constructor
        · rintro ⟨t, rfl⟩; exact ⟨t, by simp⟩
        · rintro ⟨t, ht⟩
          refine ⟨t, ?_⟩
          simp only [List.cons_append] at ht
          exact ((List.cons.injEq _ _ _ _).mp ht).2
      · have hred : isPre (a :: as) (b :: bs) = false := by simp [isPre, hab]
        rw [hred]
        constructor
        · intro h; cases h
        · rintro ⟨t, ht⟩
          simp only [List.cons_append] at ht
          exact absurd ((List.cons.injEq _ _ _ _).mp ht).1 hab

theorem isPre_length_le {k s : List Char} (h : isPre k s = true) :
    k.length ≤ s.length := by
  obtain ⟨t, rfl⟩ := (isPre_iff k s).mp h
  simp

theorem isPre_drop {k s : List Char} (h : isPre k s = true) :
    k ++ s.drop k.length = s := by
  obtain ⟨t, rfl⟩ := (isPre_iff k s).mp h
  simp

theorem isPre_append_right {k x : List Char} (y : List Char)
    (h : isPre k x = true) : isPre k (x ++ y) = true := by
  obtain ⟨t, rfl⟩ := (isPre_iff k x).mp h
  exact (isPre_iff k _).mpr ⟨t ++ y, by simp⟩

theorem occursIn_cons_false {k : List Char} {c : Char} {cs : List Char}
    (h : occursIn k (c :: cs) = false) :
    isPre k (c :: cs) = false ∧ occursIn k cs = false := by
  simpa [occursIn] using h

theorem string_data_append (a b : String) : (a ++ b).data = a.data ++ b.data := by
  cases a; cases b; rfl

theorem string_mk_inj {a b : List Char} (h : (⟨a⟩ : String) = ⟨b⟩) : a = b := by
  cases h; rfl

theorem string_data_inj {s t : String} (h : s.data = t.data) : s = t := by
  cases s; cases t; cases h; rfl

theorem append_cancel_left {α : Type} {a b c : List α} (h : a ++ b = a ++ c) :
    b = c := by
  induction a with
  | nil => simpa using h
  | cons x xs ih => exact ih (by simpa using h)

theorem append_cancel_right {α : Type} {a b c : List α} (h : a ++ c = b ++ c) :
    a = b := by
  have := congrArg List.reverse h
  simp only [List.reverse_append] at this
  have := append_cancel_left this
  simpa using congrArg List.reverse this

theorem str_append_cancel_left {a b c : String} (h : a ++ b = a ++ c) : b = c := by
  have hd : a.data ++ b.data = a.data ++ c.data := by
    rw [← string_data_append, ← string_data_append, h]
  cases b; cases c
  simp only at hd ⊢
  exact congrArg String.mk (append_cancel_left hd)

theorem lookupA_objSet_eq (m : List (String × String)) (k v : String) :
    lookupA (objSet m k v) k = some v := by
  induction m with
  | nil => simp [objSet, lookupA]
  | cons p rest ih =>
    obtain ⟨k', v'⟩ := p
    by_cases h : k' = k
    · subst h; simp [objSet, lookupA]
    · simp [objSet, lookupA, h, ih]

theorem lookupA_objSet_ne (m : List (String × String)) {k key : String}
    (v : String) (h : key ≠ k) :
    lookupA (objSet m k v) key = lookupA m key := by
  induction m with
  | nil =>
    simp only [objSet, lookupA]
    rw [if_neg (Ne.symm h)]
  | cons p rest ih =>
    obtain ⟨k', v'⟩ := p
    by_cases hk : k' = k
    · subst hk
      have hne : ¬(k' = key) := fun e => h (e.symm)
      simp [objSet, lookupA, hne]
    · simp only [objSet, if_neg hk, lookupA, ih]

theorem pathExists_objSet_mono {fs : List (String × String)} {p : String}
    (k v : String) (h : pathExists fs p = true) :
    pathExists (objSet fs k v) p = true := by
  by_cases hk : p = k
  · subst hk; simp [pathExists, lookupA_objSet_eq]
  · rwa [pathExists, lookupA_objSet_ne fs v hk]

theorem pathExists_objSet_ne {fs : List (String × String)} {p k : String}
    (v : String) (h : p ≠ k) :
    pathExists (objSet fs k v) p = pathExists fs p := by
  rw [pathExists, lookupA_objSet_ne fs v h]; rfl

theorem objSet_keys_good {G : String → Prop} :
    ∀ (m : List (String × String)) (k v : String),
      (∀ p ∈ m, G p.1) → G k → ∀ p ∈ objSet m k v, G p.1 := by
  intro m
  induction m with
  | nil =>
    intro k v _ hk p hp
    simp only [objSet, List.mem_singleton] at hp
    subst hp; exact hk
  | cons q rest ih =>
    intro k v hm hk p hp
    obtain ⟨k', v'⟩ := q
    by_cases h : k' = k
    · simp only [objSet, if_pos h, List.mem_cons] at hp
      rcases hp with rfl | hp2
      · exact hm (k', v') (List.mem_cons_self _ _)
      · exact hm p (List.mem_cons_of_mem _ hp2)
    · simp only [objSet, if_neg h, List.mem_cons] at hp
      rcases hp with rfl | hp2
      · exact hm (k', v') (List.mem_cons_self _ _)
      · exact ih k v (fun q hq => hm q (List.mem_cons_of_mem _ hq)) hk p hp2

/-! ## C5 lemmas and claim -/

theorem splice_ne_empty (a h b : String) : a ++ "_" ++ h ++ b ≠ "" := by
  intro e
  have hlen := congrArg String.length e
  rw [String.length_append, String.length_append, String.length_append] at hlen
  have h1 : ("_" : String).length = 1 := rfl
  have h0 : ("" : String).length = 0 := rfl
  rw [h1, h0] at hlen
  omega

theorem splice_inj {a h1 h2 e : String}
    (heq : a ++ "_" ++ h1 ++ e = a ++ "_" ++ h2 ++ e) : h1 = h2 := by
  have hd := congrArg String.data heq
  rw [string_data_append, string_data_append, string_data_append,
    string_data_append, string_data_append, string_data_append] at hd
  have hd2 := append_cancel_right hd
  rw [List.append_assoc, List.append_assoc] at hd2
  have hd3 := append_cancel_left (append_cancel_left hd2)
  exact string_data_inj hd3

theorem urlToFilenameParts_query_eq (parsed : UrlParts)
    (hs : parsed.search ≠ "") :
    urlToFilenameParts parsed =
      (splitExt (slashesToUnderscores (stripLeadingSlash parsed.pathname))).1 ++ "_" ++
        queryHash parsed.search ++
        (splitExt (slashesToUnderscores (stripLeadingSlash parsed.pathname))).2 := by
  simp only [urlToFilenameParts]
  rw [if_pos hs, if_neg (splice_ne_empty _ _ _)]

/-- C5 counterexample: two URLs with the same path component `/style.css` and
distinct query strings `?aaaaaab` / `?aaaaaac` (which agree on their first 6
bytes) receive the same 8-character truncated base64 fingerprint, so
`urlToFilename` maps them to the *same* local path — query-string variants
can collide, contrary to the claim. -/
theorem C5_fingerprint_collision :
    "https://stat.example.com/style.css?aaaaaab" ≠
      "https://stat.example.com/style.css?aaaaaac" ∧
    (c5Parse "https://stat.example.com/style.css?aaaaaab").pathname =
      (c5Parse "https://stat.example.com/style.css?aaaaaac").pathname ∧
    (c5Parse "https://stat.example.com/style.css?aaaaaab").search ≠
      (c5Parse "https://stat.example.com/style.css?aaaaaac").search ∧
    urlToFilename c5Parse "https://stat.example.com/style.css?aaaaaab" =
      urlToFilename c5Parse "https://stat.example.com/style.css?aaaaaac" ∧
    urlToFilename c5Parse "https://stat.example.com/style.css?aaaaaab" =
      "style_P2FhYWFh.css" := by
  decide

/-- C5 (amended): the Path Mapper splices the first 8 base64 characters of
the query string between the filename stem and extension; two URLs with the
same path component and distinct query strings map to distinct local paths
*provided their truncated fingerprints differ* (in particular whenever the
queries differ within their first 6 bytes).  Queries sharing the truncated
fingerprint collide (see the counterexample). -/
theorem C5_query_fingerprints_distinct (parse : String → UrlParts)
    (u1 u2 : String)
    (hpath : (parse u1).pathname = (parse u2).pathname)
    (hs1 : (parse u1).search ≠ "") (hs2 : (parse u2).search ≠ "")
    (hhash : queryHash (parse u1).search ≠ queryHash (parse u2).search) :
    urlToFilename parse u1 ≠ urlToFilename parse u2 := by
  intro heq
  rw [urlToFilename, urlToFilename,
    urlToFilenameParts_query_eq (parse u1) hs1,
    urlToFilenameParts_query_eq (parse u2) hs2, ← hpath] at heq
  exact hhash (splice_inj heq)

/-- Witness for `C5_query_fingerprints_distinct` at concrete inputs. -/
theorem C5_query_fingerprints_distinct_witness :
    urlToFilename c5ParseW "https://stat.example.com/a.css?x=1" ≠
      urlToFilename c5ParseW "https://stat.example.com/a.css?y=22" :=
  C5_query_fingerprints_distinct c5ParseW
    "https://stat.example.com/a.css?x=1" "https://stat.example.com/a.css?y=22"
    (by decide) (by decide) (by decide) (by decide)

/-! ## Lemmas about literal global replacement -/

theorem replaceAllAux_irrel (k v : List Char) :
    ∀ n s f₁ f₂, s.length ≤ n → s.length ≤ f₁ → s.length ≤ f₂ →
      replaceAllAux k v f₁ s = replaceAllAux k v f₂ s := by
  intro n
  induction n with
  | zero =>
    intro s f₁ f₂ hn _ _
    have hs : s = [] := List.eq_nil_of_length_eq_zero (Nat.le_zero.mp hn)
    subst hs
    cases f₁ <;> cases f₂ <;> rfl
  | succ n ih =>
    intro s f₁ f₂ hn h1 h2
    cases s with
    | nil => cases f₁ <;> cases f₂ <;> rfl
    | cons c cs =>
      have hlen : cs.length + 1 ≤ n + 1 := by simpa using hn
      obtain ⟨g₁, rfl⟩ : ∃ g, f₁ = g + 1 := by
        cases f₁ with
        | zero => simp at h1
        | succ g => exact ⟨g, rfl⟩
      obtain ⟨g₂, rfl⟩ : ∃ g, f₂ = g + 1 := by
        cases f₂ with
        | zero => simp at h2
        | succ g => exact ⟨g, rfl⟩
      simp only [List.length_cons, Nat.add_le_add_iff_right] at h1 h2
      show (if k ≠ [] ∧ isPre k (c :: cs) = true then
          v ++ replaceAllAux k v g₁ ((c :: cs).drop k.length)
        else if k = [] then v ++ c :: replaceAllAux k v g₁ cs
        else c :: replaceAllAux k v g₁ cs) =
        (if k ≠ [] ∧ isPre k (c :: cs) = true then
          v ++ replaceAllAux k v g₂ ((c :: cs).drop k.length)
        else if k = [] then v ++ c :: replaceAllAux k v g₂ cs
        else c :: replaceAllAux k v g₂ cs)
      by_cases hk : k = []
      · have hcond : ¬(k ≠ [] ∧ isPre k (c :: cs) = true) := fun h => h.1 hk
        rw [if_neg hcond, if_neg hcond, if_pos hk, if_pos hk]
        have := ih cs g₁ g₂ (by omega) h1 h2
        rw [this]
      · by_cases hp : isPre k (c :: cs) = true
        · rw [if_pos ⟨hk, hp⟩, if_pos ⟨hk, hp⟩]
          have hkl : 1 ≤ k.length := by
            cases k with
            | nil => exact absurd rfl hk
            | cons a as => simp
          have hd : ((c :: cs).drop k.length).length ≤ cs.length := by
            rw [List.length_drop, List.length_cons]
            omega
          have := ih ((c :: cs).drop k.length) g₁ g₂ (by omega) (by omega) (by omega)
          rw [this]
        · have hcond : ¬(k ≠ [] ∧ isPre k (c :: cs) = true) := fun h => hp h.2
          rw [if_neg hcond, if_neg hcond, if_neg hk, if_neg hk]
          have := ih cs g₁ g₂ (by omega) h1 h2
          rw [this]

theorem replaceAllL_nil (k v : List Char) :
    replaceAllL k v [] = if k = [] then v else [] := rfl

theorem replaceAllL_cons_match {k : List Char} (v : List Char) {c : Char}
    {cs : List Char} (hk : k ≠ []) (hp : isPre k (c :: cs) = true) :
    replaceAllL k v (c :: cs) = v ++ replaceAllL k v ((c :: cs).drop k.length) := by
  have hkl : 1 ≤ k.length := by
    cases k with
    | nil => exact absurd rfl hk
    | cons a as => simp
  show replaceAllAux k v (c :: cs).length (c :: cs) = _
  rw [List.length_cons]
  show (if k ≠ [] ∧ isPre k (c :: cs) = true then
      v ++ replaceAllAux k v cs.length ((c :: cs).drop k.length)
    else if k = [] then v ++ c :: replaceAllAux k v cs.length cs
    else c :: replaceAllAux k v cs.length cs) = _
  rw [if_pos ⟨hk, hp⟩]
  congr 1
  apply replaceAllAux_irrel k v ((c :: cs).drop k.length).length
  · exact Nat.le_refl _
  · rw [List.length_drop, List.length_cons]; omega
  · exact Nat.le_refl _

theorem replaceAllL_cons_nomatch {k : List Char} (v : List Char) {c : Char}
    {cs : List Char} (hk : k ≠ []) (hp : isPre k (c :: cs) = false) :
    replaceAllL k v (c :: cs) = c :: replaceAllL k v cs := by
  show replaceAllAux k v (c :: cs).length (c :: cs) = _
  rw [List.length_cons]
  show (if k ≠ [] ∧ isPre k (c :: cs) = true then
      v ++ replaceAllAux k v cs.length ((c :: cs).drop k.length)
    else if k = [] then v ++ c :: replaceAllAux k v cs.length cs
    else c :: replaceAllAux k v cs.length cs) = _
  rw [if_neg (fun h => by rw [hp] at h; exact Bool.false_ne_true h.2), if_neg hk]
  rfl

theorem replaceAllL_not_occurs {k : List Char} (v : List Char) (hk : k ≠ []) :
    ∀ s, occursIn k s = false → replaceAllL k v s = s := by
  intro s
  induction s with
  | nil => intro _; rw [replaceAllL_nil, if_neg hk]
  | cons c cs ih =>
    intro h
    obtain ⟨h1, h2⟩ := occursIn_cons_false h
    rw [replaceAllL_cons_nomatch v hk h1, ih h2]

theorem replaceAllL_split (k v : List Char) (hk : k ≠ []) (y : List Char)
    (hy : ∀ c ∈ k, y.head? ≠ some c) :
    ∀ n x, x.length ≤ n →
      replaceAllL k v (x ++ y) = replaceAllL k v x ++ replaceAllL k v y := by
  intro n
  induction n with
  | zero =>
    intro x hn
    have hx : x = [] := List.eq_nil_of_length_eq_zero (Nat.le_zero.mp hn)
    subst hx
    rw [List.nil_append, replaceAllL_nil, if_neg hk, List.nil_append]
  | succ n ih =>
    intro x hn
    cases x with
    | nil => rw [List.nil_append, replaceAllL_nil, if_neg hk, List.nil_append]
    | cons c x' =>
      have hkl : 1 ≤ k.length := by
        cases k with
        | nil => exact absurd rfl hk
        | cons a as => simp
      by_cases hp : isPre k ((c :: x') ++ y) = true
      · -- the match at this position lies entirely inside `c :: x'`
        obtain ⟨t, ht⟩ := (isPre_iff k _).mp hp
        have hkle : k.length ≤ (c :: x').length := by
          by_contra hgt
          push_neg at hgt
          have hylen : 1 ≤ y.length := by
            have := congrArg List.length ht
            simp only [List.length_append] at this
            omega
          obtain ⟨d, y', rfl⟩ : ∃ d y', y = d :: y' := by
            cases y with
            | nil => simp at hylen
            | cons d y' => exact ⟨d, y', rfl⟩
          have htake : ((c :: x') ++ d :: y').take k.length = k := by
            rw [← ht, List.take_left]
          rw [List.take_append_eq_append_take,
            List.take_of_length_le (by omega)] at htake
          have hmem : d ∈ k := by
            rw [← htake]
            refine List.mem_append_right _ ?_
            have : 1 ≤ k.length - (c :: x').length := by omega
            obtain ⟨m, hm⟩ : ∃ m, k.length - (c :: x').length = m + 1 :=
              ⟨k.length - (c :: x').length - 1, by omega⟩
            rw [hm, List.take_succ_cons]
            exact List.mem_cons_self _ _
          exact hy d hmem rfl
        have hpx : isPre k (c :: x') = true := by
          refine (isPre_iff _ _).mpr ⟨(c :: x').drop k.length, ?_⟩
          have htake : ((c :: x') ++ y).take k.length = k := by
            rw [← ht, List.take_left]
          rw [List.take_append_eq_append_take,
            Nat.sub_eq_zero_of_le hkle, List.take_zero, List.append_nil] at htake
          conv_rhs => rw [← List.take_append_drop k.length (c :: x')]
          rw [htake]
        have hp' : isPre k (c :: (x' ++ y)) = true := by
          simpa using hp
        rw [List.cons_append, replaceAllL_cons_match v hk hp',
          ← List.cons_append, List.drop_append_eq_append_drop,
          Nat.sub_eq_zero_of_le hkle, List.drop_zero]
        have hn' : x'.length + 1 ≤ n + 1 := by simpa using hn
        have hbound : ((c :: x').drop k.length).length ≤ n := by
          rw [List.length_drop, List.length_cons]
          omega
        rw [ih _ hbound]
        rw [replaceAllL_cons_match v hk hpx, List.append_assoc]
      · have hpx : isPre k (c :: x') = false := by
          by_contra hb
          rw [Bool.not_eq_false] at hb
          exact absurd (isPre_append_right y hb) (by simpa using hp)
        have hp' : isPre k (c :: (x' ++ y)) = false := by
          simpa using hp
        rw [List.cons_append, replaceAllL_cons_nomatch v hk hp',
          ih x' (by simpa using Nat.le_of_succ_le_succ (by simpa using hn)),
          replaceAllL_cons_nomatch v hk hpx, List.cons_append]

theorem replaceAllL_first_occ (k v : List Char) (hk : k ≠ []) :
    ∀ a b, (∀ i < a.length, isPre k ((a ++ k ++ b).drop i) = false) →
      replaceAllL k v (a ++ k ++ b) = a ++ v ++ replaceAllL k v b := by
  intro a
  induction a with
  | nil =>
    intro b _
    simp only [List.nil_append]
    obtain ⟨kh, kt, rfl⟩ : ∃ kh kt, k = kh :: kt := by
      cases k with
      | nil => exact absurd rfl hk
      | cons kh kt => exact ⟨kh, kt, rfl⟩
    have hp : isPre (kh :: kt) (kh :: (kt ++ b)) = true := by
      refine (isPre_iff _ _).mpr ⟨b, by simp⟩
    rw [List.cons_append, replaceAllL_cons_match v hk hp, ← List.cons_append,
      List.drop_left]
  | cons c a' ih =>
    intro b hfirst
    have h0 : isPre k (c :: (a' ++ k ++ b)) = false := by
      have := hfirst 0 (by simp)
      simpa using this
    have hrest : ∀ i < a'.length, isPre k ((a' ++ k ++ b).drop i) = false := by
      intro i hi
      have := hfirst (i + 1) (by simp; omega)
      simpa [List.drop_succ_cons] using this
    calc replaceAllL k v ((c :: a') ++ k ++ b)
        = replaceAllL k v (c :: (a' ++ k ++ b)) := by
          simp [List.cons_append, List.append_assoc]
      _ = c :: replaceAllL k v (a' ++ k ++ b) :=
          replaceAllL_cons_nomatch v hk h0
      _ = c :: (a' ++ v ++ replaceAllL k v b) := by rw [ih b hrest]
      _ = (c :: a') ++ v ++ replaceAllL k v b := by
          simp [List.cons_append, List.append_assoc]

theorem replaceAllL_quote_head {k : List Char} (v : List Char) (hk : k ≠ [])
    (hq : quoteD ∉ k) (rest : List Char) :
    replaceAllL k v (quoteD :: rest) = quoteD :: replaceAllL k v rest := by
  apply replaceAllL_cons_nomatch v hk
  cases k with
  | nil => exact absurd rfl hk
  | cons kh kt =>
    have hne : kh ≠ quoteD := by
      intro e
      exact hq (by rw [← e]; exact List.mem_cons_self _ _)
    simp only [isPre]
    rw [if_neg hne]

theorem replaceAllL_quoted_step (k v : List Char) (hk : k ≠ []) (hq : quoteD ∉ k)
    (ud fd wd : List Char) (hf : occursIn k fd = false) :
    replaceAllL k v (ud ++ quoteD :: (fd ++ quoteD :: wd)) =
      replaceAllL k v ud ++ quoteD :: (fd ++ quoteD :: replaceAllL k v wd) := by
  have hhead1 : ∀ c ∈ k, (quoteD :: (fd ++ quoteD :: wd)).head? ≠ some c := by
    intro c hc e
    simp only [List.head?_cons, Option.some.injEq] at e
    exact hq (by rw [e]; exact hc)
  have hhead2 : ∀ c ∈ k, (quoteD :: wd).head? ≠ some c := by
    intro c hc e
    simp only [List.head?_cons, Option.some.injEq] at e
    exact hq (by rw [e]; exact hc)
  rw [replaceAllL_split k v hk _ hhead1 ud.length ud (Nat.le_refl _),
    replaceAllL_quote_head v hk hq,
    replaceAllL_split k v hk _ hhead2 fd.length fd (Nat.le_refl _),
    replaceAllL_not_occurs v hk fd hf,
    replaceAllL_quote_head v hk hq]

theorem replaceAll_quoted_step (u f w k v : String)
    (hk : k.data ≠ []) (hq : quoteD ∉ k.data)
    (hf : occursIn k.data f.data = false) :
    replaceAll (u ++ "\"" ++ f ++ "\"" ++ w) k v =
      replaceAll u k v ++ "\"" ++ f ++ "\"" ++ replaceAll w k v := by
  apply string_data_inj
  have hqd : ("\"" : String).data = [quoteD] := by decide
  show replaceAllL k.data v.data (u ++ "\"" ++ f ++ "\"" ++ w).data =
    (replaceAll u k v ++ "\"" ++ f ++ "\"" ++ replaceAll w k v).data
  simp only [string_data_append, hqd, List.append_assoc, List.singleton_append]
  exact replaceAllL_quoted_step k.data v.data hk hq u.data f.data w.data hf

theorem rewrite_quoted (f b : String) :
    ∀ (map : List (String × String)) (u w : String),
      (∀ p ∈ map, p.1.data ≠ [] ∧ quoteD ∉ p.1.data ∧
        occursIn p.1.data f.data = false) →
      ∃ u' w', rewriteHtmlUrls (u ++ "\"" ++ f ++ "\"" ++ w) map b =
        u' ++ "\"" ++ f ++ "\"" ++ w' := by
  intro map
  induction map with
  | nil => intro u w _; exact ⟨u, w, rfl⟩
  | cons p rest ih =>
    intro u w hgood
    obtain ⟨h1, h2, h3⟩ := hgood p (List.mem_cons_self _ _)
    obtain ⟨u', w', he⟩ := ih (replaceAll u p.1 p.2) (replaceAll w p.1 p.2)
      (fun q hq => hgood q (List.mem_cons_of_mem _ hq))
    refine ⟨u', w', ?_⟩
    show rewriteHtmlUrls (replaceAll (u ++ "\"" ++ f ++ "\"" ++ w) p.1 p.2) rest b =
      u' ++ "\"" ++ f ++ "\"" ++ w'
    rw [replaceAll_quoted_step u f w p.1 p.2 h1 h2 h3]
    exact he

/-! ## C3: the Reference Rewriter -/

/-- C3 counterexample: for the document `<link rel="stylesheet"
href="style.css">` and the complete reference table mapping its only
reference `style.css` to `resources/style.css`, the rewriter's output still
contains the mapped original reference `style.css` (inside the substituted
local path), so "the output contains no remaining occurrence of any mapped
original reference" is false. -/
theorem C3_remaining_occurrence_counterexample :
    rewriteHtmlUrls "<link rel=\"stylesheet\" href=\"style.css\">"
        [("style.css", "resources/style.css")] "https://stat.example.com/p.html" =
      "<link rel=\"stylesheet\" href=\"resources/style.css\">" ∧
    occursIn "style.css".data
      (rewriteHtmlUrls "<link rel=\"stylesheet\" href=\"style.css\">"
        [("style.css", "resources/style.css")]
        "https://stat.example.com/p.html").data = true := by
  decide

/-- C3 (amended): every literal occurrence of a table key present when its
entry is processed is replaced by its local path — proved here for a
document `a ++ k ++ b` whose first match of the key `k` is the displayed
occurrence and whose suffix contains no further occurrence: the rewriter
produces exactly `a ++ v ++ b`.  The output may however retain a mapped
original reference as a substring of substituted text (for every resource
the local path `resources/<name>` re-contains the original `<name>`), so
"no remaining occurrence" does not hold in general. -/
theorem C3_rewriter_replaces_occurrence (a k b v u : String)
    (hk : k ≠ "")
    (hfirst : ∀ i < a.data.length,
      isPre k.data ((a ++ k ++ b).data.drop i) = false)
    (hb : occursIn k.data b.data = false) :
    rewriteHtmlUrls (a ++ k ++ b) [(k, v)] u = a ++ v ++ b := by
  have hkd : k.data ≠ [] := by
    intro h
    exact hk (string_data_inj (by rw [h]))
  show replaceAll (a ++ k ++ b) k v = a ++ v ++ b
  apply string_data_inj
  show replaceAllL k.data v.data (a ++ k ++ b).data = (a ++ v ++ b).data
  have hfirst' : ∀ i < a.data.length,
      isPre k.data ((a.data ++ k.data ++ b.data).drop i) = false := by
    intro i hi
    have := hfirst i hi
    rwa [string_data_append, string_data_append] at this
  rw [string_data_append, string_data_append, string_data_append,
    string_data_append, replaceAllL_first_occ k.data v.data hkd a.data b.data hfirst',
    replaceAllL_not_occurs v.data hkd b.data hb]

/-- Witness for `C3_rewriter_replaces_occurrence` at concrete inputs. -/
theorem C3_rewriter_replaces_occurrence_witness :
    rewriteHtmlUrls ("<img src=\"" ++ "logo.png" ++ "\">")
        [("logo.png", "resources/logo.png")] "u" =
      "<img src=\"" ++ "resources/logo.png" ++ "\">" :=
  C3_rewriter_replaces_occurrence "<img src=\"" "logo.png" "\">"
    "resources/logo.png" "u" (by decide) (by decide) (by decide)

/-! ## Link-extractor lemmas -/

theorem mem_addUnique {acc : List String} {x y : String}
    (h : y ∈ addUnique acc x) : y ∈ acc ∨ y = x := by
  unfold addUnique at h
  by_cases hx : x ∈ acc
  · rw [if_pos hx] at h; exact Or.inl h
  · rw [if_neg hx] at h
    rcases List.mem_append.mp h with h1 | h1
    · exact Or.inl h1
    · exact Or.inr (List.mem_singleton.mp h1)

theorem mem_subpageLinkStep {acc : List String} {e : Elem} {x : String}
    (h : x ∈ subpageLinkStep acc e) :
    x ∈ acc ∨
      (strStartsWith x "#" = false ∧ strStartsWith x "http://" = false ∧
       strStartsWith x "https://" = false ∧ strStartsWith x "awstats." = true ∧
       strEndsWith x ".html" = true) := by
  unfold subpageLinkStep at h
  split at h
  case isTrue hcond =>
    split at h
    case h_1 href heq =>
      split at h
      case isTrue => exact Or.inl h
      case isFalse hne =>
        split at h
        case isTrue => exact Or.inl h
        case isFalse h3 =>
          split at h
          case isTrue => exact Or.inl h
          case isFalse h4 =>
            split at h
            case isTrue h5 =>
              rcases mem_addUnique h with h6 | heq2
              · exact Or.inl h6
              · right
                rw [heq2]
                have h5' : strStartsWith href "awstats." = true ∧
                    strEndsWith href ".html" = true := by simpa using h5
                have h3' : strStartsWith href "#" = false := by simpa using h3
                have h4' : strStartsWith href "http://" = false ∧
                    strStartsWith href "https://" = false := by
                  simpa [not_or] using h4
                exact ⟨h3', h4'.1, h4'.2, h5'.1, h5'.2⟩
            case isFalse => exact Or.inl h
    case h_2 => exact Or.inl h
  case isFalse => exact Or.inl h

theorem subpage_fold_filters :
    ∀ (doc : List Elem) (acc : List String),
      (∀ x ∈ acc,
        strStartsWith x "#" = false ∧ strStartsWith x "http://" = false ∧
        strStartsWith x "https://" = false ∧ strStartsWith x "awstats." = true ∧
        strEndsWith x ".html" = true) →
      ∀ x ∈ doc.foldl subpageLinkStep acc,
        strStartsWith x "#" = false ∧ strStartsWith x "http://" = false ∧
        strStartsWith x "https://" = false ∧ strStartsWith x "awstats." = true ∧
        strEndsWith x ".html" = true := by
  intro doc
  induction doc with
  | nil => intro acc hacc x hx; exact hacc x hx
  | cons e doc' ih =>
    intro acc hacc x hx
    refine ih (subpageLinkStep acc e) ?_ x hx
    intro y hy
    rcases mem_subpageLinkStep hy with h | h
    · exact hacc y h
    · exact h

theorem extractSubpageLinks_filters (env : Env) (html : String) :
    ∀ x ∈ extractSubpageLinks env html,
      strStartsWith x "#" = false ∧ strStartsWith x "http://" = false ∧
      strStartsWith x "https://" = false ∧ strStartsWith x "awstats." = true ∧
      strEndsWith x ".html" = true := by
  intro x hx
  exact subpage_fold_filters (env.load html) []
    (fun y hy => absurd hy (List.not_mem_nil y)) x hx

/-! ## C2: the Reference Extractor does not de-duplicate -/

/--
C2 (code bug): on a well-formed document containing the *same* image
reference in two elements (one distinct reference, `n = 1`), the extractor
returns **two** identical entries.  The source `add`s fresh object literals
to a JS `Set`, which compares objects by reference, so the intended
de-duplication by `(kind, absoluteUrl)` never happens: the deduplicated
count is 1 but the returned list has length 2.
-/
theorem C2_extractor_retains_duplicates :
    extractResources c2Env c2Html "https://stat.example.com/page.html" =
      [⟨"image", "https://stat.example.com/logo.png", "logo.png"⟩,
       ⟨"image", "https://stat.example.com/logo.png", "logo.png"⟩] ∧
    (extractResources c2Env c2Html "https://stat.example.com/page.html").length = 2 ∧
    ((extractResources c2Env c2Html "https://stat.example.com/page.html").map
      (fun r => (r.type, r.url))).dedup.length = 1 := by
  decide

/-! ## C8 and C9: the Link Extractor -/

/--
C8: every filename returned by the Link Extractor is not a pure in-page
fragment, not an absolute `http(s)` URL (hence in particular not an absolute
URL to the disallowed external documentation host), starts with `awstats.`
and ends with `.html`; and on the spec's two-anchor scenario the extractor
returns exactly `["awstats.x.errors404.html"]`.
-/
theorem C8_link_extractor_filtering :
    (∀ (env : Env) (html : String), ∀ l ∈ extractSubpageLinks env html,
      strStartsWith l "#" = false ∧ strStartsWith l "http://" = false ∧
      strStartsWith l "https://" = false ∧ strStartsWith l "awstats." = true ∧
      strEndsWith l ".html" = true) ∧
    extractSubpageLinks c8Env c8Html = ["awstats.x.errors404.html"] := by
  constructor
  · intro env html l hl
    exact extractSubpageLinks_filters env html l hl
  · decide

/-- Witness for `C8_link_extractor_filtering` at a concrete link of the
scenario document. -/
theorem C8_link_extractor_filtering_witness :
    strStartsWith "awstats.x.errors404.html" "#" = false ∧
    strStartsWith "awstats.x.errors404.html" "http://" = false ∧
    strStartsWith "awstats.x.errors404.html" "https://" = false ∧
    strStartsWith "awstats.x.errors404.html" "awstats." = true ∧
    strEndsWith "awstats.x.errors404.html" ".html" = true :=
  C8_link_extractor_filtering.1 c8Env c8Html "awstats.x.errors404.html" (by decide)

/--
C9 (implicit): the Link Extractor rejects *every* anchor target beginning
with `http://` or `https://`, whatever its host; in particular an absolute
URL to a same-family sibling report page (`awstats.*.html` on the stats
host) is never returned.
-/
theorem C9_absolute_urls_always_excluded :
    (∀ (env : Env) (html : String), ∀ l ∈ extractSubpageLinks env html,
      strStartsWith l "http://" = false ∧ strStartsWith l "https://" = false) ∧
    extractSubpageLinks c9Env c9Html = [] := by
  constructor
  · intro env html l hl
    have h := extractSubpageLinks_filters env html l hl
    exact ⟨h.2.1, h.2.2.1⟩
  · decide

/-- Witness for `C9_absolute_urls_always_excluded` at a concrete returned
link (the C8 scenario's only result). -/
theorem C9_absolute_urls_always_excluded_witness :
    strStartsWith "awstats.x.errors404.html" "http://" = false ∧
    strStartsWith "awstats.x.errors404.html" "https://" = false :=
  C9_absolute_urls_always_excluded.1 c8Env c8Html "awstats.x.errors404.html" (by decide)

/-! ## Resource-materializer loop lemmas -/

theorem materializeLoop_all_exist (parse : String → UrlParts)
    (fetch : String → Option String) (pageDir : String) :
    ∀ (rs : List Resource) (st : MatState),
      (∀ r ∈ rs, pathExists st.fs (resPath parse pageDir r) = true) →
      materializeLoop parse fetch pageDir rs st =
        ⟨st.fs, canonicalTable parse rs st.map, st.log⟩ := by
  intro rs
  induction rs with
  | nil => intro st _; rfl
  | cons r rest ih =>
    intro st hex
    have hr : pathExists st.fs
        (pathJoin pageDir ("resources/" ++ urlToFilename parse r.url)) = true :=
      hex r (List.mem_cons_self _ _)
    simp only [materializeLoop]
    rw [if_pos hr]
    exact ih _ (fun r' hr' => hex r' (List.mem_cons_of_mem _ hr'))

theorem materializeLoop_map_all_ok (parse : String → UrlParts)
    (fetch : String → Option String) (pageDir : String) :
    ∀ (rs : List Resource) (st : MatState),
      (∀ r ∈ rs, fetch r.url ≠ none) →
      (materializeLoop parse fetch pageDir rs st).map =
        canonicalTable parse rs st.map := by
  intro rs
  induction rs with
  | nil => intro st _; rfl
  | cons r rest ih =>
    intro st hok
    simp only [materializeLoop]
    by_cases hex : pathExists st.fs
        (pathJoin pageDir ("resources/" ++ urlToFilename parse r.url)) = true
    · rw [if_pos hex]
      exact ih _ (fun r' hr' => hok r' (List.mem_cons_of_mem _ hr'))
    · rw [if_neg hex]
      cases hfr : fetch r.url with
      | none => exact absurd hfr (hok r (List.mem_cons_self _ _))
      | some body =>
        exact ih _ (fun r' hr' => hok r' (List.mem_cons_of_mem _ hr'))

/-! ## C1: Resource Materializer idempotence -/

/--
C1: when every resource's mapped local file already exists in the page
directory, the materializer performs zero `fetchWithAuth` calls (for *any*
fetch oracle), writes nothing, and produces exactly the same `resourceMap`
(each original reference and each absolute URL mapped to its local path) as
a run, from an arbitrary file system, in which every resource fetch
succeeds.
-/
theorem C1_materializer_idempotent (parse : String → UrlParts)
    (fetch₁ fetch₂ : String → Option String) (pageDir : String)
    (resources : List Resource) (fs₁ fs₂ : List (String × String))
    (hex : ∀ r ∈ resources, pathExists fs₁ (resPath parse pageDir r) = true)
    (hok : ∀ r ∈ resources, fetch₂ r.url ≠ none) :
    (materializeLoop parse fetch₁ pageDir resources ⟨fs₁, [], []⟩).log = [] ∧
    (materializeLoop parse fetch₁ pageDir resources ⟨fs₁, [], []⟩).fs = fs₁ ∧
    (materializeLoop parse fetch₁ pageDir resources ⟨fs₁, [], []⟩).map =
      (materializeLoop parse fetch₂ pageDir resources ⟨fs₂, [], []⟩).map := by
  have h1 := materializeLoop_all_exist parse fetch₁ pageDir resources ⟨fs₁, [], []⟩ hex
  have h2 := materializeLoop_map_all_ok parse fetch₂ pageDir resources ⟨fs₂, [], []⟩ hok
  refine ⟨by rw [h1], by rw [h1], ?_⟩
  rw [h1, h2]

/-- Witness for `C1_materializer_idempotent` at concrete inputs. -/
theorem C1_materializer_idempotent_witness :
    (materializeLoop c1Parse (fun _ => none) "pd" [c1Res]
      ⟨[("pd/resources/style.css", "x")], [], []⟩).log = [] ∧
    (materializeLoop c1Parse (fun _ => none) "pd" [c1Res]
      ⟨[("pd/resources/style.css", "x")], [], []⟩).fs =
      [("pd/resources/style.css", "x")] ∧
    (materializeLoop c1Parse (fun _ => none) "pd" [c1Res]
      ⟨[("pd/resources/style.css", "x")], [], []⟩).map =
      (materializeLoop c1Parse (fun _ => some "body") "pd" [c1Res]
        ⟨[], [], []⟩).map :=
  C1_materializer_idempotent c1Parse (fun _ => none) (fun _ => some "body") "pd"
    [c1Res] [("pd/resources/style.css", "x")] [] (by decide) (by decide)

/-! ## C4: the Page Materializer always re-fetches the page body -/

/--
C4: for a page whose own HTML file already exists in the page directory
(with arbitrary old content) and all of whose resources are already on
disk, `fetchPage` still fetches the page body (its single `fetchWithAuth`
call is the page URL — resources are skipped), re-derives the document from
the fresh body, and overwrites the page file with the freshly rewritten
document.  Only resources are skip-if-present; the page document never is.
-/
theorem C4_page_always_refetched (env : Env) (fetch : String → Option String)
    (fs₀ : List (String × String)) (url domain dateCode html oldContent : String)
    (hfetch : fetch url = some html)
    (_hold : lookupA fs₀
      (pathJoin (pathJoin (pathJoin OUTPUT_DIR domain) dateCode)
        (htmlFilenameOf env.parse url)) = some oldContent)
    (hex : ∀ r ∈ extractResources env html url,
      pathExists fs₀ (resPath env.parse
        (pathJoin (pathJoin OUTPUT_DIR domain) dateCode) r) = true) :
    ∃ st n, fetchPage env fetch fs₀ url domain dateCode = some (st, n) ∧
      st.log = [url] ∧
      lookupA st.fs
        (pathJoin (pathJoin (pathJoin OUTPUT_DIR domain) dateCode)
          (htmlFilenameOf env.parse url)) =
        some (rewriteHtmlUrls html
          (canonicalTable env.parse (extractResources env html url) []) url) := by
  have hloop := materializeLoop_all_exist env.parse fetch
    (pathJoin (pathJoin OUTPUT_DIR domain) dateCode)
    (extractResources env html url) ⟨fs₀, [], []⟩ hex
  simp only [fetchPage, hfetch, downloadResourcesAndSave]
  rw [hloop]
  refine ⟨_, _, rfl, rfl, ?_⟩
  exact lookupA_objSet_eq _ _ _

/-- Witness for `C4_page_always_refetched` at concrete inputs. -/
theorem C4_page_always_refetched_witness :
    ∃ st n, fetchPage c4Env c4Fetch c4Fs
        "https://stat.example.com/cgi-bin/awstats.x.html" "example.com" "202601" =
        some (st, n) ∧
      st.log = ["https://stat.example.com/cgi-bin/awstats.x.html"] ∧
      lookupA st.fs
        (pathJoin (pathJoin (pathJoin OUTPUT_DIR "example.com") "202601")
          (htmlFilenameOf c4Env.parse "https://stat.example.com/cgi-bin/awstats.x.html")) =
        some (rewriteHtmlUrls "<link rel=\"stylesheet\" href=\"style.css\">"
          (canonicalTable c4Env.parse
            (extractResources c4Env "<link rel=\"stylesheet\" href=\"style.css\">"
              "https://stat.example.com/cgi-bin/awstats.x.html") [])
          "https://stat.example.com/cgi-bin/awstats.x.html") :=
  C4_page_always_refetched c4Env c4Fetch c4Fs
    "https://stat.example.com/cgi-bin/awstats.x.html" "example.com" "202601"
    "<link rel=\"stylesheet\" href=\"style.css\">" "old content"
    (by decide) (by decide) (by decide)

/-! ## C10: existing sub-pages are skipped entirely yet counted -/

theorem subpagesLoop_all_exist (env : Env) (fetch : String → Option String)
    (pageDir baseUrl : String) :
    ∀ (l : List String) (st : SubState),
      (∀ f ∈ l, pathExists st.fs (pathJoin pageDir f) = true) →
      subpagesLoop env fetch pageDir baseUrl l st =
        { st with subpagesFetched := st.subpagesFetched + l.length } := by
  intro l
  induction l with
  | nil => intro st _; rfl
  | cons f rest ih =>
    intro st hall
    simp only [subpagesLoop]
    rw [if_pos (hall f (List.mem_cons_self _ _))]
    rw [ih { st with subpagesFetched := st.subpagesFetched + 1 }
      (fun g hg => hall g (List.mem_cons_of_mem _ hg))]
    rw [List.length_cons,
      show st.subpagesFetched + 1 + rest.length =
        st.subpagesFetched + (rest.length + 1) from by omega]

/--
C10 (implicit): when every discovered sub-page file already exists in the
page directory, the crawler makes zero `fetchWithAuth` calls, runs the
fetch branch for no sub-page, writes nothing (the file system is returned
unchanged — in particular no resources are materialized), reports zero
failures — and yet `subpagesFetched` equals the full number of discovered
links, counting each skipped sub-page as if it had been fetched.
-/
theorem C10_existing_subpages_skipped_but_counted (env : Env)
    (fetch : String → Option String) (fs₀ : List (String × String))
    (url domain dateCode mainHtml : String)
    (hmain : lookupA fs₀
      (pathJoin (pathJoin (pathJoin OUTPUT_DIR domain) dateCode)
        (htmlFilenameOf env.parse url)) = some mainHtml)
    (hall : ∀ f ∈ (extractSubpageLinks env mainHtml).filter
        (fun l => l != htmlFilenameOf env.parse url),
      pathExists fs₀
        (pathJoin (pathJoin (pathJoin OUTPUT_DIR domain) dateCode) f) = true) :
    fetchSubpages env fetch fs₀ url domain dateCode =
      ⟨fs₀, [], [],
        ((extractSubpageLinks env mainHtml).filter
          (fun l => l != htmlFilenameOf env.parse url)).length, 0⟩ := by
  simp only [fetchSubpages, hmain]
  rw [subpagesLoop_all_exist env fetch _ _ _ ⟨fs₀, [], [], 0, 0⟩ hall]
  rw [show (0 : Nat) +
      ((extractSubpageLinks env mainHtml).filter
        (fun l => l != htmlFilenameOf env.parse url)).length =
      ((extractSubpageLinks env mainHtml).filter
        (fun l => l != htmlFilenameOf env.parse url)).length from by omega]

/-- Witness for `C10_existing_subpages_skipped_but_counted` at concrete
inputs. -/
theorem C10_existing_subpages_skipped_but_counted_witness :
    fetchSubpages c10Env (fun _ => none) c10Fs
      "https://stat.example.com/cgi-bin/awstats.x.html" "example.com" "202601" =
      ⟨c10Fs, [], [], 1, 0⟩ :=
  C10_existing_subpages_skipped_but_counted c10Env (fun _ => none) c10Fs
    "https://stat.example.com/cgi-bin/awstats.x.html" "example.com" "202601"
    "mainhtml" (by decide) (by decide)

/-! ## Crawler lemmas -/

theorem nodup_append_singleton :
    ∀ (l : List String) (x : String), x ∉ l → l.Nodup → (l ++ [x]).Nodup := by
  intro l
  induction l with
  | nil => intro x _ _; simp
  | cons a l' ih =>
    intro x hx hn
    rw [List.cons_append, List.nodup_cons]
    rw [List.nodup_cons] at hn
    refine ⟨?_, ih x (fun h => hx (List.mem_cons_of_mem _ h)) hn.2⟩
    intro hmem
    rcases List.mem_append.mp hmem with h | h
    · exact hn.1 h
    · exact hx (by rw [List.mem_singleton.mp h]; exact List.mem_cons_self _ _)

theorem nodup_addUnique {acc : List String} (x : String) (h : acc.Nodup) :
    (addUnique acc x).Nodup := by
  unfold addUnique
  by_cases hx : x ∈ acc
  · rwa [if_pos hx]
  · rw [if_neg hx]
    exact nodup_append_singleton acc x hx h

theorem nodup_subpageLinkStep {acc : List String} (e : Elem) (h : acc.Nodup) :
    (subpageLinkStep acc e).Nodup := by
  unfold subpageLinkStep
  split
  · split
    · split
      · exact h
      · split
        · exact h
        · split
          · exact h
          · split
            · exact nodup_addUnique _ h
            · exact h
    · exact h
  · exact h

theorem nodup_subpage_fold :
    ∀ (doc : List Elem) (acc : List String), acc.Nodup →
      (doc.foldl subpageLinkStep acc).Nodup := by
  intro doc
  induction doc with
  | nil => intro acc h; exact h
  | cons e doc' ih => intro acc h; exact ih _ (nodup_subpageLinkStep e h)

theorem extractSubpageLinks_nodup (env : Env) (html : String) :
    (extractSubpageLinks env html).Nodup :=
  nodup_subpage_fold (env.load html) [] List.nodup_nil

theorem materializeLoop_fs_mono (parse : String → UrlParts)
    (fetch : String → Option String) (pageDir : String) :
    ∀ (rs : List Resource) (st : MatState) (p : String),
      pathExists st.fs p = true →
      pathExists (materializeLoop parse fetch pageDir rs st).fs p = true := by
  intro rs
  induction rs with
  | nil => intro st p h; exact h
  | cons r rest ih =>
    intro st p h
    simp only [materializeLoop]
    by_cases hex : pathExists st.fs
        (pathJoin pageDir ("resources/" ++ urlToFilename parse r.url)) = true
    · rw [if_pos hex]; exact ih _ p h
    · rw [if_neg hex]
      cases hfr : fetch r.url with
      | none => exact ih _ p h
      | some body => exact ih _ p (pathExists_objSet_mono _ _ h)

theorem downloadResourcesAndSave_fs_mono (env : Env)
    (fetch : String → Option String) (fs₀ : List (String × String))
    (html pageUrl pageDir htmlFilename p : String)
    (h : pathExists fs₀ p = true) :
    pathExists (downloadResourcesAndSave env fetch fs₀ html pageUrl pageDir
      htmlFilename).1.fs p = true := by
  simp only [downloadResourcesAndSave]
  exact pathExists_objSet_mono _ _
    (materializeLoop_fs_mono env.parse fetch pageDir _ ⟨fs₀, [], []⟩ p h)

theorem subpagesLoop_attempts (env : Env) (fetch : String → Option String)
    (pageDir baseUrl : String) (fs₀ : List (String × String)) :
    ∀ (l : List String) (st : SubState),
      (∀ p, pathExists fs₀ p = true → pathExists st.fs p = true) →
      ∃ extra, (subpagesLoop env fetch pageDir baseUrl l st).subAttempts =
          st.subAttempts ++ extra ∧
        extra.Sublist l ∧
        ∀ f ∈ extra, pathExists fs₀ (pathJoin pageDir f) = false := by
  intro l
  induction l with
  | nil =>
    intro st _
    exact ⟨[], by simp [subpagesLoop], List.nil_sublist _, by simp⟩
  | cons f rest ih =>
    intro st hbase
    simp only [subpagesLoop]
    by_cases hex : pathExists st.fs (pathJoin pageDir f) = true
    · rw [if_pos hex]
      obtain ⟨extra, hA, hS, hF⟩ :=
        ih { st with subpagesFetched := st.subpagesFetched + 1 } hbase
      exact ⟨extra, hA, hS.cons f, hF⟩
    · rw [if_neg hex]
      have hf0 : pathExists fs₀ (pathJoin pageDir f) = false := by
        by_contra hb
        rw [Bool.not_eq_false] at hb
        exact hex (hbase _ hb)
      cases hfr : fetch (baseUrl ++ f) with
      | some html =>
        obtain ⟨extra, hA, hS, hF⟩ :=
          ih { fs := (downloadResourcesAndSave env fetch st.fs html
                  (baseUrl ++ f) pageDir f).1.fs,
               log := st.log ++ (baseUrl ++ f) ::
                 (downloadResourcesAndSave env fetch st.fs html
                   (baseUrl ++ f) pageDir f).1.log,
               subAttempts := st.subAttempts ++ [f],
               subpagesFetched := st.subpagesFetched + 1,
               subpagesFailed := st.subpagesFailed }
            (fun p hp => downloadResourcesAndSave_fs_mono env fetch st.fs html
              (baseUrl ++ f) pageDir f p (hbase p hp))
        refine ⟨f :: extra, ?_, hS.cons₂ f, ?_⟩
        · rw [hA]
          simp [List.append_assoc]
        · intro g hg
          rcases List.mem_cons.mp hg with rfl | hg2
          · exact hf0
          · exact hF g hg2
      | none =>
        obtain ⟨extra, hA, hS, hF⟩ :=
          ih { st with
               log := st.log ++ [baseUrl ++ f],
               subAttempts := st.subAttempts ++ [f],
               subpagesFailed := st.subpagesFailed + 1 }
            hbase
        refine ⟨f :: extra, ?_, hS.cons₂ f, ?_⟩
        · rw [hA]
          simp [List.append_assoc]
        · intro g hg
          rcases List.mem_cons.mp hg with rfl | hg2
          · exact hf0
          · exact hF g hg2

/-! ## C7: the Recursive Crawler fetches each sub-page at most once -/

/--
C7: for a materialized root page, the set of sub-page filenames for which a
fetch is attempted is a duplicate-free sublist of the links discovered in
the root page with the root's own filename removed; the root's filename is
never fetched, and no filename whose file already exists on disk is fetched.
The traversal is a single structurally-recursive pass over that finite link
list (the model's `subpagesLoop` is total by construction), so it terminates
whatever cycles the page link graph contains.
-/
theorem C7_crawler_at_most_once (env : Env) (fetch : String → Option String)
    (fs₀ : List (String × String)) (url domain dateCode mainHtml : String)
    (hmain : lookupA fs₀
      (pathJoin (pathJoin (pathJoin OUTPUT_DIR domain) dateCode)
        (htmlFilenameOf env.parse url)) = some mainHtml) :
    (fetchSubpages env fetch fs₀ url domain dateCode).subAttempts.Sublist
      ((extractSubpageLinks env mainHtml).filter
        (fun l => l != htmlFilenameOf env.parse url)) ∧
    (fetchSubpages env fetch fs₀ url domain dateCode).subAttempts.Nodup ∧
    htmlFilenameOf env.parse url ∉
      (fetchSubpages env fetch fs₀ url domain dateCode).subAttempts ∧
    ∀ f ∈ (fetchSubpages env fetch fs₀ url domain dateCode).subAttempts,
      pathExists fs₀
        (pathJoin (pathJoin (pathJoin OUTPUT_DIR domain) dateCode) f) = false := by
  simp only [fetchSubpages, hmain]
  obtain ⟨extra, hA, hS, hF⟩ := subpagesLoop_attempts env fetch
    (pathJoin (pathJoin OUTPUT_DIR domain) dateCode) (baseUrlOf url) fs₀
    ((extractSubpageLinks env mainHtml).filter
      (fun l => l != htmlFilenameOf env.parse url))
    ⟨fs₀, [], [], 0, 0⟩ (fun _ hp => hp)
  simp only [List.nil_append] at hA
  rw [hA]
  have hnodup : ((extractSubpageLinks env mainHtml).filter
      (fun l => l != htmlFilenameOf env.parse url)).Nodup :=
    (extractSubpageLinks_nodup env mainHtml).filter _
  refine ⟨hS, hnodup.sublist hS, ?_, hF⟩
  intro hmem
  have := hS.subset hmem
  have hp := (List.mem_filter.mp this).2
  simp at hp

/-- Witness for `C7_crawler_at_most_once` at concrete inputs. -/
theorem C7_crawler_at_most_once_witness :
    (fetchSubpages c7Env (fun _ => none) c7Fs
      "https://stat.example.com/cgi-bin/awstats.x.html" "example.com"
      "202601").subAttempts.Sublist
      ((extractSubpageLinks c7Env "mainhtml").filter
        (fun l => l != htmlFilenameOf c7Env.parse
          "https://stat.example.com/cgi-bin/awstats.x.html")) ∧
    (fetchSubpages c7Env (fun _ => none) c7Fs
      "https://stat.example.com/cgi-bin/awstats.x.html" "example.com"
      "202601").subAttempts.Nodup ∧
    htmlFilenameOf c7Env.parse "https://stat.example.com/cgi-bin/awstats.x.html" ∉
      (fetchSubpages c7Env (fun _ => none) c7Fs
        "https://stat.example.com/cgi-bin/awstats.x.html" "example.com"
        "202601").subAttempts ∧
    ∀ f ∈ (fetchSubpages c7Env (fun _ => none) c7Fs
        "https://stat.example.com/cgi-bin/awstats.x.html" "example.com"
        "202601").subAttempts,
      pathExists c7Fs
        (pathJoin (pathJoin (pathJoin OUTPUT_DIR "example.com") "202601") f) = false :=
  C7_crawler_at_most_once c7Env (fun _ => none) c7Fs
    "https://stat.example.com/cgi-bin/awstats.x.html" "example.com" "202601"
    "mainhtml" (by decide)

/-! ## Partial-failure lemmas -/

theorem resPath_ne (parse : String → UrlParts) (pageDir : String)
    {r r' : Resource}
    (h : urlToFilename parse r.url ≠ urlToFilename parse r'.url) :
    resPath parse pageDir r ≠ resPath parse pageDir r' := by
  intro he
  apply h
  unfold resPath pathJoin at he
  have h1 := str_append_cancel_left he
  exact str_append_cancel_left h1

theorem lookupA_double_objSet (m : List (String × String))
    (o u lp key : String) :
    lookupA (objSet (objSet m o lp) u lp) key =
      if key = u then some lp
      else if key = o then some lp
      else lookupA m key := by
  by_cases h1 : key = u
  · rw [if_pos h1, h1, lookupA_objSet_eq]
  · rw [if_neg h1, lookupA_objSet_ne _ _ h1]
    by_cases h2 : key = o
    · rw [if_pos h2, h2, lookupA_objSet_eq]
    · rw [if_neg h2, lookupA_objSet_ne _ _ h2]

theorem materializeLoop_c6_invariant (parse : String → UrlParts)
    (fetch : String → Option String) (pageDir : String) (rf : Resource)
    (G : String → Prop) (hfail : fetch rf.url = none) :
    ∀ (rs : List Resource) (st : MatState),
      (∀ r ∈ rs, r.url ≠ rf.url →
        urlToFilename parse r.url ≠ urlToFilename parse rf.url) →
      (∀ r ∈ rs, r.url ≠ rf.url →
        r.original ≠ rf.original ∧ r.original ≠ rf.url ∧ r.url ≠ rf.original) →
      (∀ r ∈ rs, r.url ≠ rf.url → G r.original ∧ G r.url) →
      pathExists st.fs (resPath parse pageDir rf) = false →
      lookupA st.map rf.original = none →
      lookupA st.map rf.url = none →
      (∀ p ∈ st.map, G p.1) →
      pathExists (materializeLoop parse fetch pageDir rs st).fs
          (resPath parse pageDir rf) = false ∧
        lookupA (materializeLoop parse fetch pageDir rs st).map rf.original = none ∧
        lookupA (materializeLoop parse fetch pageDir rs st).map rf.url = none ∧
        (∀ p ∈ (materializeLoop parse fetch pageDir rs st).map, G p.1) := by
  intro rs
  induction rs with
  | nil => intro st _ _ _ habs hmo hmu hmg; exact ⟨habs, hmo, hmu, hmg⟩
  | cons r rest ih =>
    intro st hfn hkeys hgood habs hmo hmu hmg
    simp only [materializeLoop]
    by_cases hru : r.url = rf.url
    · -- same URL as the failed resource: its file can never exist, its fetch fails
      have hexf : pathExists st.fs
          (pathJoin pageDir ("resources/" ++ urlToFilename parse r.url)) = false := by
        have : resPath parse pageDir r = resPath parse pageDir rf := by
          unfold resPath; rw [hru]
        rw [← this] at habs
        exact habs
      rw [if_neg (by simp [hexf])]
      cases hfr : fetch r.url with
      | some b =>
        rw [hru, hfail] at hfr
        cases hfr
      | none =>
        exact ih _ (fun r' h' => hfn r' (List.mem_cons_of_mem _ h'))
          (fun r' h' => hkeys r' (List.mem_cons_of_mem _ h'))
          (fun r' h' => hgood r' (List.mem_cons_of_mem _ h'))
          habs hmo hmu hmg
    · obtain ⟨hko, hku, hkuo⟩ := hkeys r (List.mem_cons_self _ _) hru
      obtain ⟨hgo, hgu⟩ := hgood r (List.mem_cons_self _ _) hru
      have hfnr := hfn r (List.mem_cons_self _ _) hru
      have hpne : resPath parse pageDir rf ≠ resPath parse pageDir r :=
        Ne.symm (resPath_ne parse pageDir hfnr)
      have hmapinv :
          lookupA (objSet (objSet st.map r.original
              ("resources/" ++ urlToFilename parse r.url)) r.url
              ("resources/" ++ urlToFilename parse r.url)) rf.original = none ∧
          lookupA (objSet (objSet st.map r.original
              ("resources/" ++ urlToFilename parse r.url)) r.url
              ("resources/" ++ urlToFilename parse r.url)) rf.url = none := by
        rw [lookupA_double_objSet, lookupA_double_objSet,
          if_neg (Ne.symm hkuo), if_neg (Ne.symm hko),
          if_neg (fun h => hru h.symm), if_neg (Ne.symm hku)]
        exact ⟨hmo, hmu⟩
      have hmg' : ∀ p ∈ objSet (objSet st.map r.original
          ("resources/" ++ urlToFilename parse r.url)) r.url
          ("resources/" ++ urlToFilename parse r.url), G p.1 :=
        objSet_keys_good _ _ _ (objSet_keys_good _ _ _ hmg hgo) hgu
      by_cases hex : pathExists st.fs
          (pathJoin pageDir ("resources/" ++ urlToFilename parse r.url)) = true
      · rw [if_pos hex]
        exact ih _ (fun r' h' => hfn r' (List.mem_cons_of_mem _ h'))
          (fun r' h' => hkeys r' (List.mem_cons_of_mem _ h'))
          (fun r' h' => hgood r' (List.mem_cons_of_mem _ h'))
          habs hmapinv.1 hmapinv.2 hmg'
      · rw [if_neg hex]
        cases hfr : fetch r.url with
        | none =>
          exact ih _ (fun r' h' => hfn r' (List.mem_cons_of_mem _ h'))
            (fun r' h' => hkeys r' (List.mem_cons_of_mem _ h'))
            (fun r' h' => hgood r' (List.mem_cons_of_mem _ h'))
            habs hmo hmu hmg
        | some body =>
          have hpne' : resPath parse pageDir rf ≠
              pathJoin pageDir ("resources/" ++ urlToFilename parse r.url) := hpne
          have habs' : pathExists (objSet st.fs
              (pathJoin pageDir ("resources/" ++ urlToFilename parse r.url)) body)
              (resPath parse pageDir rf) = false := by
            rw [pathExists_objSet_ne _ hpne']
            exact habs
          exact ih _ (fun r' h' => hfn r' (List.mem_cons_of_mem _ h'))
            (fun r' h' => hkeys r' (List.mem_cons_of_mem _ h'))
            (fun r' h' => hgood r' (List.mem_cons_of_mem _ h'))
            habs' hmapinv.1 hmapinv.2 hmg'

theorem materializeLoop_lookup_stable (parse : String → UrlParts)
    (fetch : String → Option String) (pageDir : String) (key val : String) :
    ∀ (rs : List Resource) (st : MatState),
      (∀ r ∈ rs, r.original = key ∨ r.url = key →
        "resources/" ++ urlToFilename parse r.url = val) →
      lookupA st.map key = some val →
      lookupA (materializeLoop parse fetch pageDir rs st).map key = some val := by
  intro rs
  induction rs with
  | nil => intro st _ h0; exact h0
  | cons r rest ih =>
    intro st hcomp h0
    simp only [materializeLoop]
    have hmap' : lookupA (objSet (objSet st.map r.original
        ("resources/" ++ urlToFilename parse r.url)) r.url
        ("resources/" ++ urlToFilename parse r.url)) key = some val := by
      rw [lookupA_double_objSet]
      by_cases h1 : key = r.url
      · rw [if_pos h1,
          hcomp r (List.mem_cons_self _ _) (Or.inr h1.symm)]
      · rw [if_neg h1]
        by_cases h2 : key = r.original
        · rw [if_pos h2,
            hcomp r (List.mem_cons_self _ _) (Or.inl h2.symm)]
        · rw [if_neg h2]
          exact h0
    by_cases hex : pathExists st.fs
        (pathJoin pageDir ("resources/" ++ urlToFilename parse r.url)) = true
    · rw [if_pos hex]
      exact ih _ (fun r' h' hd => hcomp r' (List.mem_cons_of_mem _ h') hd) hmap'
    · rw [if_neg hex]
      cases hfr : fetch r.url with
      | none => exact ih _ (fun r' h' hd => hcomp r' (List.mem_cons_of_mem _ h') hd) h0
      | some body =>
        exact ih _ (fun r' h' hd => hcomp r' (List.mem_cons_of_mem _ h') hd) hmap'

theorem materializeLoop_assigns (parse : String → UrlParts)
    (fetch : String → Option String) (pageDir : String) :
    ∀ (rs : List Resource) (st : MatState) (r₀ : Resource), r₀ ∈ rs →
      (pathExists st.fs (resPath parse pageDir r₀) = true ∨ fetch r₀.url ≠ none) →
      (∀ r ∈ rs, r.original = r₀.original ∨ r.url = r₀.original →
        "resources/" ++ urlToFilename parse r.url =
          "resources/" ++ urlToFilename parse r₀.url) →
      (∀ r ∈ rs, r.original = r₀.url ∨ r.url = r₀.url →
        "resources/" ++ urlToFilename parse r.url =
          "resources/" ++ urlToFilename parse r₀.url) →
      lookupA (materializeLoop parse fetch pageDir rs st).map r₀.original =
        some ("resources/" ++ urlToFilename parse r₀.url) ∧
      lookupA (materializeLoop parse fetch pageDir rs st).map r₀.url =
        some ("resources/" ++ urlToFilename parse r₀.url) := by
  intro rs
  induction rs with
  | nil => intro st r₀ hmem; exact absurd hmem (List.not_mem_nil r₀)
  | cons r rest ih =>
    intro st r₀ hmem hre hco hcu
    rcases List.mem_cons.mp hmem with heq | hmem'
    · subst heq
      simp only [materializeLoop]
      have hset : lookupA (objSet (objSet st.map r₀.original
          ("resources/" ++ urlToFilename parse r₀.url)) r₀.url
          ("resources/" ++ urlToFilename parse r₀.url)) r₀.original =
            some ("resources/" ++ urlToFilename parse r₀.url) ∧
          lookupA (objSet (objSet st.map r₀.original
            ("resources/" ++ urlToFilename parse r₀.url)) r₀.url
            ("resources/" ++ urlToFilename parse r₀.url)) r₀.url =
            some ("resources/" ++ urlToFilename parse r₀.url) := by
        constructor
        · rw [lookupA_double_objSet]
          by_cases h : r₀.original = r₀.url
          · rw [if_pos h]
          · rw [if_neg h, if_pos rfl]
        · rw [lookupA_double_objSet, if_pos rfl]
      by_cases hex : pathExists st.fs
          (pathJoin pageDir ("resources/" ++ urlToFilename parse r₀.url)) = true
      · rw [if_pos hex]
        exact ⟨materializeLoop_lookup_stable parse fetch pageDir _ _ rest _
            (fun r' h' hd => hco r' (List.mem_cons_of_mem _ h') hd) hset.1,
          materializeLoop_lookup_stable parse fetch pageDir _ _ rest _
            (fun r' h' hd => hcu r' (List.mem_cons_of_mem _ h') hd) hset.2⟩
      · rw [if_neg hex]
        cases hfr : fetch r₀.url with
        | none =>
          rcases hre with h | h
          · exact absurd h hex
          · exact absurd hfr h
        | some body =>
          exact ⟨materializeLoop_lookup_stable parse fetch pageDir _ _ rest _
              (fun r' h' hd => hco r' (List.mem_cons_of_mem _ h') hd) hset.1,
            materializeLoop_lookup_stable parse fetch pageDir _ _ rest _
              (fun r' h' hd => hcu r' (List.mem_cons_of_mem _ h') hd) hset.2⟩
    · simp only [materializeLoop]
      by_cases hex : pathExists st.fs
          (pathJoin pageDir ("resources/" ++ urlToFilename parse r.url)) = true
      · rw [if_pos hex]
        refine ih _ r₀ hmem' ?_ (fun r' h' hd => hco r' (List.mem_cons_of_mem _ h') hd)
          (fun r' h' hd => hcu r' (List.mem_cons_of_mem _ h') hd)
        exact hre
      · rw [if_neg hex]
        cases hfr : fetch r.url with
        | none =>
          refine ih _ r₀ hmem' ?_
            (fun r' h' hd => hco r' (List.mem_cons_of_mem _ h') hd)
            (fun r' h' hd => hcu r' (List.mem_cons_of_mem _ h') hd)
          exact hre
        | some body =>
          refine ih _ r₀ hmem' ?_
            (fun r' h' hd => hco r' (List.mem_cons_of_mem _ h') hd)
            (fun r' h' hd => hcu r' (List.mem_cons_of_mem _ h') hd)
          rcases hre with h | h
          · exact Or.inl (pathExists_objSet_mono _ _ h)
          · exact Or.inr h

/-! ## C6: partial-failure isolation -/

/--
C6: when the fetch of one extracted resource `rf` fails (and its file is not
already on disk), the materializer excludes `rf` from the `resourceMap`
(neither its original reference nor its absolute URL gets an entry), still
materializes every other resource (each gets both of its entries, mapped to
its local path), and the page is still rewritten and written: the page file
holds the rewrite of the document under the final table, in which the failed
resource's quoted reference text survives verbatim (its reference is left as
the original text).  The side conditions say the failed resource's keys and
local path are not shared with other resources, references contain no double
quote, no other mapped key occurs inside the failed reference text, and
resources sharing a key share a local path.
-/
theorem C6_partial_failure_isolation (env : Env)
    (fetch : String → Option String) (fs₀ : List (String × String))
    (html u f w pageUrl pageDir htmlFilename : String)
    (rs : List Resource) (rf : Resource)
    (hhtml : html = u ++ "\"" ++ f ++ "\"" ++ w)
    (hrs : extractResources env html pageUrl = rs)
    (_hmem : rf ∈ rs) (_horig : rf.original = f)
    (hfail : fetch rf.url = none)
    (habs : pathExists fs₀ (resPath env.parse pageDir rf) = false)
    (hfn : ∀ r ∈ rs, r.url ≠ rf.url →
      urlToFilename env.parse r.url ≠ urlToFilename env.parse rf.url)
    (hkeys : ∀ r ∈ rs, r.url ≠ rf.url →
      r.original ≠ rf.original ∧ r.original ≠ rf.url ∧ r.url ≠ rf.original)
    (hgoodk : ∀ r ∈ rs, r.url ≠ rf.url →
      (r.original.data ≠ [] ∧ quoteD ∉ r.original.data ∧
        occursIn r.original.data f.data = false) ∧
      (r.url.data ≠ [] ∧ quoteD ∉ r.url.data ∧
        occursIn r.url.data f.data = false))
    (hok : ∀ r ∈ rs, r.url ≠ rf.url →
      pathExists fs₀ (resPath env.parse pageDir r) = true ∨ fetch r.url ≠ none)
    (hcoh : ∀ r ∈ rs, ∀ r' ∈ rs,
      (r.original = r'.original ∨ r.original = r'.url ∨
       r.url = r'.original ∨ r.url = r'.url) →
      urlToFilename env.parse r.url = urlToFilename env.parse r'.url) :
    lookupA (downloadResourcesAndSave env fetch fs₀ html pageUrl pageDir
        htmlFilename).1.map rf.original = none ∧
    lookupA (downloadResourcesAndSave env fetch fs₀ html pageUrl pageDir
        htmlFilename).1.map rf.url = none ∧
    (∀ r ∈ rs, r.url ≠ rf.url →
      lookupA (downloadResourcesAndSave env fetch fs₀ html pageUrl pageDir
          htmlFilename).1.map r.original =
        some ("resources/" ++ urlToFilename env.parse r.url) ∧
      lookupA (downloadResourcesAndSave env fetch fs₀ html pageUrl pageDir
          htmlFilename).1.map r.url =
        some ("resources/" ++ urlToFilename env.parse r.url)) ∧
    lookupA (downloadResourcesAndSave env fetch fs₀ html pageUrl pageDir
        htmlFilename).1.fs (pathJoin pageDir htmlFilename) =
      some (rewriteHtmlUrls html (downloadResourcesAndSave env fetch fs₀ html
        pageUrl pageDir htmlFilename).1.map pageUrl) ∧
    ∃ u' w', rewriteHtmlUrls html (downloadResourcesAndSave env fetch fs₀ html
        pageUrl pageDir htmlFilename).1.map pageUrl =
      u' ++ "\"" ++ f ++ "\"" ++ w' := by
  subst hhtml
  obtain ⟨habsM, hmo, hmu, hmg⟩ := materializeLoop_c6_invariant env.parse fetch
    pageDir rf
    (fun k => k.data ≠ [] ∧ quoteD ∉ k.data ∧ occursIn k.data f.data = false)
    hfail rs ⟨fs₀, [], []⟩ hfn hkeys (fun r hr hru => hgoodk r hr hru)
    habs rfl rfl (fun p hp => absurd hp (List.not_mem_nil p))
  simp only [downloadResourcesAndSave, hrs]
  refine ⟨hmo, hmu, ?_, ?_, ?_⟩
  · intro r hr hru
    have hco : ∀ r' ∈ rs, r'.original = r.original ∨ r'.url = r.original →
        "resources/" ++ urlToFilename env.parse r'.url =
          "resources/" ++ urlToFilename env.parse r.url := by
      intro r' h' hd
      refine congrArg (fun s => "resources/" ++ s) (hcoh r' h' r hr ?_)
      rcases hd with h | h
      · exact Or.inl h
      · exact Or.inr (Or.inr (Or.inl h))
    have hcu : ∀ r' ∈ rs, r'.original = r.url ∨ r'.url = r.url →
        "resources/" ++ urlToFilename env.parse r'.url =
          "resources/" ++ urlToFilename env.parse r.url := by
      intro r' h' hd
      refine congrArg (fun s => "resources/" ++ s) (hcoh r' h' r hr ?_)
      rcases hd with h | h
      · exact Or.inr (Or.inl h)
      · exact Or.inr (Or.inr (Or.inr h))
    exact materializeLoop_assigns env.parse fetch pageDir rs ⟨fs₀, [], []⟩ r hr
      (hok r hr hru) hco hcu
  · exact lookupA_objSet_eq _ _ _
  · exact rewrite_quoted f pageUrl _ u w hmg

/-- Witness for `C6_partial_failure_isolation` at concrete inputs: the
stylesheet `ok.css` is fetched and mapped, the image `bad.png` fails, and
the written page still contains `"bad.png"` verbatim. -/
theorem C6_partial_failure_isolation_witness :
    lookupA (downloadResourcesAndSave c6Env c6Fetch [] c6Html
        "https://stat.example.com/page.html" "output/example.com/202601"
        "page.html").1.map "bad.png" = none ∧
    lookupA (downloadResourcesAndSave c6Env c6Fetch [] c6Html
        "https://stat.example.com/page.html" "output/example.com/202601"
        "page.html").1.map "https://stat.example.com/bad.png" = none ∧
    (∀ r ∈ [(⟨"css", "https://stat.example.com/ok.css", "ok.css"⟩ : Resource),
        c6Rf], r.url ≠ "https://stat.example.com/bad.png" →
      lookupA (downloadResourcesAndSave c6Env c6Fetch [] c6Html
          "https://stat.example.com/page.html" "output/example.com/202601"
          "page.html").1.map r.original =
        some ("resources/" ++ urlToFilename c6Env.parse r.url) ∧
      lookupA (downloadResourcesAndSave c6Env c6Fetch [] c6Html
          "https://stat.example.com/page.html" "output/example.com/202601"
          "page.html").1.map r.url =
        some ("resources/" ++ urlToFilename c6Env.parse r.url)) ∧
    lookupA (downloadResourcesAndSave c6Env c6Fetch [] c6Html
        "https://stat.example.com/page.html" "output/example.com/202601"
        "page.html").1.fs (pathJoin "output/example.com/202601" "page.html") =
      some (rewriteHtmlUrls c6Html (downloadResourcesAndSave c6Env c6Fetch []
        c6Html "https://stat.example.com/page.html" "output/example.com/202601"
        "page.html").1.map "https://stat.example.com/page.html") ∧
    ∃ u' w', rewriteHtmlUrls c6Html (downloadResourcesAndSave c6Env c6Fetch []
        c6Html "https://stat.example.com/page.html" "output/example.com/202601"
        "page.html").1.map "https://stat.example.com/page.html" =
      u' ++ "\"" ++ "bad.png" ++ "\"" ++ w' :=
  C6_partial_failure_isolation c6Env c6Fetch [] c6Html c6U "bad.png" ">"
    "https://stat.example.com/page.html" "output/example.com/202601" "page.html"
    [⟨"css", "https://stat.example.com/ok.css", "ok.css"⟩, c6Rf] c6Rf
    (by decide) (by decide) (by decide) (by decide) (by decide) (by decide)
    (by decide) (by decide) (by decide) (by decide) (by decide)
